import Mathlib

/-!
Verification development for the document-comparison engine of this
repository (`src/utils/textComparison.js` and `src/utils/textComparison.ts`).

The engine is shallowly embedded: the DOM-level code is modelled at the data
level (a document is a list of block lines with text/formatting, a list of
image source locators and a grid of table-cell texts; the annotation markup
that the source applies through `classList.add` / `innerHTML` is modelled as
explicit mark values).  The external `diff` npm library (Myers/LCS diff of
token sequences, used by the source through `diffChars`, `diffWordsWithSpace`
and `diffArrays`) is modelled by an explicit LCS-based edit-script
computation over token lists; the claims proved below depend only on the
output being a valid edit script whose common segments are maximal runs with
removals emitted before insertions, which the model guarantees by
construction exactly as the library does.

Recursive functions take an explicit fuel argument (always called with
enough fuel) purely so that every definition is structurally recursive and
hence evaluable by the kernel; the fallback branches are unreachable for the
fuel supplied by the wrappers.
-/

set_option maxHeartbeats 1000000

namespace DocDiff

/-- model of JavaScript `String.prototype.trim`: strip leading and trailing
whitespace from both ends of a string. -/
def jsTrim (s : String) : String :=
  ⟨((s.data.dropWhile Char.isWhitespace).reverse.dropWhile Char.isWhitespace).reverse⟩

/-- whether a string is blank (trims to the empty string); JS code tests this
with the truthiness of `text.trim()`. -/
def isBlank (s : String) : Bool := jsTrim s == ""

/-- one element of a raw edit script: a token kept on both sides (`eq`, with
the left-hand and right-hand occurrence of the token), a token only present
on the right (`add`) or only on the left (`rem`). -/
inductive Seg (α : Type) where
  | eq (l r : α)
  | add (b : α)
  | rem (a : α)
deriving DecidableEq, Repr

/-- length of the longest common subsequence of two token lists under the
comparator `cmp`; the fuel argument only bounds recursion depth. -/
def lcsLen (cmp : α → α → Bool) : Nat → List α → List α → Nat
  | _, [], _ => 0
  | _, _, [] => 0
  | 0, _, _ => 0
  | fuel + 1, a :: as, b :: bs =>
    if cmp a b then lcsLen cmp fuel as bs + 1
    else max (lcsLen cmp fuel as (b :: bs)) (lcsLen cmp fuel (a :: as) bs)

/-- LCS-based edit script between two token lists, the model of the Myers
array diff performed by the `diff` library: common tokens are kept, and at a
mismatch the branch retaining a longer common subsequence is taken, removals
preferred on ties (the library likewise emits removals before insertions). -/
def diffSegs (cmp : α → α → Bool) : Nat → List α → List α → List (Seg α)
  | _, [], bs => bs.map .add
  | _, a :: as, [] => (a :: as).map .rem
  | 0, as, bs => as.map .rem ++ bs.map .add
  | fuel + 1, a :: as, b :: bs =>
    if cmp a b then .eq a b :: diffSegs cmp fuel as bs
    else if lcsLen cmp fuel (a :: as) bs ≤ lcsLen cmp fuel as (b :: bs) then
      .rem a :: diffSegs cmp fuel as (b :: bs)
    else
      .add b :: diffSegs cmp fuel (a :: as) bs

/-- edit script of two token lists, with sufficient fuel. -/
def diffBy (cmp : α → α → Bool) (as bs : List α) : List (Seg α) :=
  diffSegs cmp (as.length + bs.length) as bs

/-- tokens of an edit script that come from the left (old) sequence. -/
def segsLeft : List (Seg α) → List α
  | [] => []
  | .eq l _ :: s => l :: segsLeft s
  | .rem a :: s => a :: segsLeft s
  | .add _ :: s => segsLeft s

/-- tokens of an edit script that come from the right (new) sequence. -/
def segsRight : List (Seg α) → List α
  | [] => []
  | .eq _ r :: s => r :: segsRight s
  | .add b :: s => b :: segsRight s
  | .rem _ :: s => segsRight s

@[simp] theorem segsLeft_nil : segsLeft ([] : List (Seg α)) = [] := rfl

@[simp] theorem segsLeft_eq_cons (l r : α) (s : List (Seg α)) :
    segsLeft (.eq l r :: s) = l :: segsLeft s := rfl

@[simp] theorem segsLeft_rem_cons (a : α) (s : List (Seg α)) :
    segsLeft (.rem a :: s) = a :: segsLeft s := rfl

@[simp] theorem segsLeft_add_cons (b : α) (s : List (Seg α)) :
    segsLeft (.add b :: s) = segsLeft s := rfl

@[simp] theorem segsRight_nil : segsRight ([] : List (Seg α)) = [] := rfl

@[simp] theorem segsRight_eq_cons (l r : α) (s : List (Seg α)) :
    segsRight (.eq l r :: s) = r :: segsRight s := rfl

@[simp] theorem segsRight_add_cons (b : α) (s : List (Seg α)) :
    segsRight (.add b :: s) = b :: segsRight s := rfl

@[simp] theorem segsRight_rem_cons (a : α) (s : List (Seg α)) :
    segsRight (.rem a :: s) = segsRight s := rfl

@[simp] theorem segsLeft_append (s t : List (Seg α)) :
    segsLeft (s ++ t) = segsLeft s ++ segsLeft t := by
  induction s with
  | nil => rfl
  | cons x s ih => cases x <;> simp [ih]

@[simp] theorem segsRight_append (s t : List (Seg α)) :
    segsRight (s ++ t) = segsRight s ++ segsRight t := by
  induction s with
  | nil => rfl
  | cons x s ih => cases x <;> simp [ih]

@[simp] theorem segsLeft_map_add (bs : List α) : segsLeft (bs.map .add) = [] := by
  induction bs with
  | nil => rfl
  | cons b bs ih => simp [ih]

@[simp] theorem segsLeft_map_rem (as : List α) : segsLeft (as.map .rem) = as := by
  induction as with
  | nil => rfl
  | cons a as ih => simp [ih]

@[simp] theorem segsRight_map_add (bs : List α) : segsRight (bs.map .add) = bs := by
  induction bs with
  | nil => rfl
  | cons b bs ih => simp [ih]

@[simp] theorem segsRight_map_rem (as : List α) : segsRight (as.map .rem) = [] := by
  induction as with
  | nil => rfl
  | cons a as ih => simp [ih]

/-- the edit script is exhaustive on the left: the tokens it classifies as
kept-or-removed are exactly the left input, in order. -/
theorem segsLeft_diffSegs (cmp : α → α → Bool) (fuel : Nat) (as bs : List α) :
    segsLeft (diffSegs cmp fuel as bs) = as := by
  induction fuel generalizing as bs with
  | zero => cases as <;> cases bs <;> simp [diffSegs]
  | succ fuel ih =>
    cases as with
    | nil => simp [diffSegs]
    | cons a as =>
      cases bs with
      | nil => simp [diffSegs]
      | cons b bs =>
        simp only [diffSegs]
        split
        · simp [ih]
        · split <;> simp [ih]

/-- the edit script is exhaustive on the right: the tokens it classifies as
kept-or-added are exactly the right input, in order. -/
theorem segsRight_diffSegs (cmp : α → α → Bool) (fuel : Nat) (as bs : List α) :
    segsRight (diffSegs cmp fuel as bs) = bs := by
  induction fuel generalizing as bs with
  | zero => cases as <;> cases bs <;> simp [diffSegs]
  | succ fuel ih =>
    cases as with
    | nil => simp [diffSegs]
    | cons a as =>
      cases bs with
      | nil => simp [diffSegs]
      | cons b bs =>
        simp only [diffSegs]
        split
        · simp [ih]
        · split <;> simp [ih]

theorem segsLeft_diffBy (cmp : α → α → Bool) (as bs : List α) :
    segsLeft (diffBy cmp as bs) = as := segsLeft_diffSegs cmp _ as bs

theorem segsRight_diffBy (cmp : α → α → Bool) (as bs : List α) :
    segsRight (diffBy cmp as bs) = bs := segsRight_diffSegs cmp _ as bs

/-- every kept pair of the edit script satisfies the comparator. -/
theorem diffSegs_eq_mem (cmp : α → α → Bool) (fuel : Nat) (as bs : List α)
    {l r : α} (h : Seg.eq l r ∈ diffSegs cmp fuel as bs) : cmp l r = true := by
  induction fuel generalizing as bs with
  | zero =>
    cases as <;> cases bs <;> simp [diffSegs] at h
  | succ fuel ih =>
    cases as with
    | nil => simp [diffSegs] at h
    | cons a as =>
      cases bs with
      | nil => simp [diffSegs] at h
      | cons b bs =>
        simp only [diffSegs] at h
        split at h
        · rcases List.mem_cons.mp h with h | h
          · cases h; assumption
          · exact ih _ _ h
        · split at h <;> rcases List.mem_cons.mp h with h | h <;>
            first | (cases h) | exact ih _ _ h

/-- a maximal run of the edit script, the model of one output part of the
`diff` library (`{value, count, added?, removed?}`): a run of kept pairs, of
right-only tokens, or of left-only tokens. -/
inductive Part (α : Type) where
  | eqP (ps : List (α × α))
  | addP (vs : List α)
  | remP (vs : List α)
deriving DecidableEq, Repr

/-- group adjacent same-kind script elements into maximal runs, as the `diff`
library's parts are. -/
def coalesce : List (Seg α) → List (Part α)
  | [] => []
  | .eq l r :: rest =>
    match coalesce rest with
    | .eqP ps :: parts => .eqP ((l, r) :: ps) :: parts
    | parts => .eqP [(l, r)] :: parts
  | .add b :: rest =>
    match coalesce rest with
    | .addP vs :: parts => .addP (b :: vs) :: parts
    | parts => .addP [b] :: parts
  | .rem a :: rest =>
    match coalesce rest with
    | .remP vs :: parts => .remP (a :: vs) :: parts
    | parts => .remP [a] :: parts

/-- the script elements a run stands for. -/
def partToSegs : Part α → List (Seg α)
  | .eqP ps => ps.map (fun pr => Seg.eq pr.1 pr.2)
  | .addP vs => vs.map .add
  | .remP vs => vs.map .rem

/-- flatten runs back into a raw script. -/
def partsToSegs (parts : List (Part α)) : List (Seg α) :=
  (parts.map partToSegs).flatten

/-- left-side tokens a run consumes. -/
def Part.leftVals : Part α → List α
  | .eqP ps => ps.map Prod.fst
  | .addP _ => []
  | .remP vs => vs

/-- right-side tokens a run consumes. -/
def Part.rightVals : Part α → List α
  | .eqP ps => ps.map Prod.snd
  | .addP vs => vs
  | .remP _ => []

/-- left-side tokens consumed by a list of runs, in order. -/
def partsLeft (parts : List (Part α)) : List α :=
  (parts.map Part.leftVals).flatten

/-- right-side tokens consumed by a list of runs, in order. -/
def partsRight (parts : List (Part α)) : List α :=
  (parts.map Part.rightVals).flatten

@[simp] theorem segsLeft_map_eqPair (ps : List (α × α)) :
    segsLeft (ps.map (fun pr => Seg.eq pr.1 pr.2)) = ps.map Prod.fst := by
  induction ps with
  | nil => rfl
  | cons p ps ih => simp [ih]

@[simp] theorem segsRight_map_eqPair (ps : List (α × α)) :
    segsRight (ps.map (fun pr => Seg.eq pr.1 pr.2)) = ps.map Prod.snd := by
  induction ps with
  | nil => rfl
  | cons p ps ih => simp [ih]

theorem segsLeft_partToSegs (p : Part α) : segsLeft (partToSegs p) = p.leftVals := by
  cases p <;> simp [partToSegs, Part.leftVals]

theorem segsRight_partToSegs (p : Part α) : segsRight (partToSegs p) = p.rightVals := by
  cases p <;> simp [partToSegs, Part.rightVals]

theorem partsLeft_eq_segsLeft (parts : List (Part α)) :
    partsLeft parts = segsLeft (partsToSegs parts) := by
  induction parts with
  | nil => rfl
  | cons p parts ih =>
    show p.leftVals ++ partsLeft parts = segsLeft (partToSegs p ++ partsToSegs parts)
    rw [segsLeft_append, segsLeft_partToSegs, ih]

theorem partsRight_eq_segsRight (parts : List (Part α)) :
    partsRight parts = segsRight (partsToSegs parts) := by
  induction parts with
  | nil => rfl
  | cons p parts ih =>
    show p.rightVals ++ partsRight parts = segsRight (partToSegs p ++ partsToSegs parts)
    rw [segsRight_append, segsRight_partToSegs, ih]

/-- coalescing is lossless: flattening the runs gives back the script. -/
theorem coalesce_toSegs (segs : List (Seg α)) :
    partsToSegs (coalesce segs) = segs := by
  induction segs with
  | nil => rfl
  | cons s rest ih =>
    have key : partsToSegs (coalesce (s :: rest)) = s :: partsToSegs (coalesce rest) := by
      cases s with
      | eq l r =>
        simp only [coalesce]
        cases h : coalesce rest with
        | nil => simp [partsToSegs, partToSegs]
        | cons p parts =>
          cases p <;> simp [partsToSegs, partToSegs]
      | add b =>
        simp only [coalesce]
        cases h : coalesce rest with
        | nil => simp [partsToSegs, partToSegs]
        | cons p parts =>
          cases p <;> simp [partsToSegs, partToSegs]
      | rem a =>
        simp only [coalesce]
        cases h : coalesce rest with
        | nil => simp [partsToSegs, partToSegs]
        | cons p parts =>
          cases p <;> simp [partsToSegs, partToSegs]
    rw [key, ih]

theorem partsLeft_coalesce (segs : List (Seg α)) :
    partsLeft (coalesce segs) = segsLeft segs := by
  rw [partsLeft_eq_segsLeft, coalesce_toSegs]

theorem partsRight_coalesce (segs : List (Seg α)) :
    partsRight (coalesce segs) = segsRight segs := by
  rw [partsRight_eq_segsRight, coalesce_toSegs]

/-- kept pairs inside a coalesced run come from kept script elements. -/
theorem coalesce_eqPair_mem {segs : List (Seg α)} {ps : List (α × α)}
    (hp : Part.eqP ps ∈ coalesce segs) {pr : α × α} (hpr : pr ∈ ps) :
    Seg.eq pr.1 pr.2 ∈ segs := by
  have hm : Seg.eq pr.1 pr.2 ∈ partsToSegs (coalesce segs) :=
    List.mem_flatten.mpr
      ⟨partToSegs (Part.eqP ps), List.mem_map_of_mem _ hp, List.mem_map_of_mem _ hpr⟩
  rwa [coalesce_toSegs] at hm

/-- status of an inline diff token, exactly the spec's WordToken statuses. -/
inductive TokStatus where
  | unchanged | added | removed
deriving DecidableEq, Repr

/-- one output token of the inline differ (`{value, status}`); the model of a
part returned by `diffChars` / `diffWordsWithSpace`. -/
structure WordToken where
  value : String
  status : TokStatus
deriving DecidableEq, Repr

/-- value string of a run, its tokens rendered through `val`; as in the
library, a kept run's value is taken from the right-hand occurrences. -/
def partValue (val : α → List Char) : Part α → List Char
  | .eqP ps => (ps.map (fun pr => val pr.2)).flatten
  | .addP vs => (vs.map val).flatten
  | .remP vs => (vs.map val).flatten

/-- status of a run. -/
def partStatus : Part α → TokStatus
  | .eqP _ => .unchanged
  | .addP _ => .added
  | .remP _ => .removed

/-- turn a coalesced run into an output token. -/
def partToToken (val : α → List Char) (p : Part α) : WordToken :=
  ⟨⟨partValue val p⟩, partStatus p⟩

/-- split a character list into maximal runs of whitespace and
non-whitespace characters: the tokenization used by `diffWordsWithSpace`. -/
def tokenizeWS : List Char → List (List Char)
  | [] => []
  | c :: cs =>
    match tokenizeWS cs with
    | (d :: g) :: gs =>
      if c.isWhitespace == d.isWhitespace then (c :: d :: g) :: gs
      else [c] :: (d :: g) :: gs
    | gs => [c] :: gs

theorem tokenizeWS_flatten (cs : List Char) : (tokenizeWS cs).flatten = cs := by
  induction cs with
  | nil => rfl
  | cons c cs ih =>
    cases h : tokenizeWS cs with
    | nil =>
      rw [h] at ih
      simp only [tokenizeWS, h]
      simp [← ih]
    | cons g gs =>
      cases g with
      | nil =>
        rw [h] at ih
        simp only [tokenizeWS, h]
        simp at ih
        simp [← ih]
      | cons d g =>
        rw [h] at ih
        simp only [tokenizeWS, h]
        split <;> simp_all

/-- model of the library's `diffWordsWithSpace`: tokenize both strings into
word/whitespace runs, LCS-diff the token arrays under exact equality, and
emit one token per maximal run.  This is the spec's `diffText`. -/
def diffWordsWithSpace (a b : String) : List WordToken :=
  (coalesce (diffBy (· == ·) (tokenizeWS a.data) (tokenizeWS b.data))).map (partToToken id)

/-- model of the library's `diffChars`: LCS-diff the character sequences
under exact equality and emit one token per maximal run. -/
def diffChars (a b : String) : List WordToken :=
  (coalesce (diffBy (· == ·) a.data b.data)).map (partToToken (fun c => [c]))

/-- entry type of `compareDocuments` output arrays. -/
inductive DiffType where
  | insert | delete | equal
deriving DecidableEq, Repr

/-- one entry of `compareDocuments` output arrays (`{type, content}`). -/
structure DiffItem where
  type : DiffType
  content : String
deriving DecidableEq, Repr

/-- output of `compareDocuments` (`{leftDiffs, rightDiffs, summary}`). -/
structure CompareOut where
  leftDiffs : List DiffItem
  rightDiffs : List DiffItem
  additions : Nat
  deletions : Nat
  changes : Nat
deriving DecidableEq, Repr

/-- model of `compareDocuments` (textComparison.js lines 3-24): run the
character diff and route added parts to the right array, removed parts to
the left array and equal parts to both, counting one addition per added
part and one deletion per removed part; `changes` is their sum. -/
def compareDocuments (a b : String) : CompareOut :=
  let diffs := diffChars a b
  let leftDiffs := diffs.filterMap (fun d =>
    match d.status with
    | .added => none
    | .removed => some ⟨.delete, d.value⟩
    | .unchanged => some ⟨.equal, d.value⟩)
  let rightDiffs := diffs.filterMap (fun d =>
    match d.status with
    | .added => some ⟨.insert, d.value⟩
    | .removed => none
    | .unchanged => some ⟨.equal, d.value⟩)
  let additions := (diffs.filter (fun d => d.status == .added)).length
  let deletions := (diffs.filter (fun d => d.status == .removed)).length
  ⟨leftDiffs, rightDiffs, additions, deletions, additions + deletions⟩

/-- whether a token is pure whitespace (contains no non-whitespace
character): the library's `!reWhitespace.test(token)`. -/
def allWS (cs : List Char) : Bool := cs.all Char.isWhitespace

/-- token comparator of the library's `diffWords` under its default
`ignoreWhitespace: true`: two tokens are equal when they are identical or
when both are pure whitespace. -/
def wordCmp (l r : List Char) : Bool := l == r || (allWS l && allWS r)

/-- model of the library's `diffWords` with default options, the diff used
by the TypeScript `compareDocuments`: word/whitespace-run tokenization
diffed under the whitespace-insensitive comparator.  As in the library, a
kept run's value is assembled from the new (right-hand) occurrences, so a
kept pair of unequal whitespace tokens adopts the right-hand spelling. -/
def diffWordsTs (a b : String) : List WordToken :=
  (coalesce (diffBy wordCmp (tokenizeWS a.data) (tokenizeWS b.data))).map (partToToken id)

/-- model of the TypeScript `compareDocuments` (textComparison.ts lines
4-31): identical to the js version except that the diff is the word-based
`diffWords` rather than the character diff. -/
def compareDocumentsTs (a b : String) : CompareOut :=
  let diffs := diffWordsTs a b
  let leftDiffs := diffs.filterMap (fun d =>
    match d.status with
    | .added => none
    | .removed => some ⟨.delete, d.value⟩
    | .unchanged => some ⟨.equal, d.value⟩)
  let rightDiffs := diffs.filterMap (fun d =>
    match d.status with
    | .added => some ⟨.insert, d.value⟩
    | .removed => none
    | .unchanged => some ⟨.equal, d.value⟩)
  let additions := (diffs.filter (fun d => d.status == .added)).length
  let deletions := (diffs.filter (fun d => d.status == .removed)).length
  ⟨leftDiffs, rightDiffs, additions, deletions, additions + deletions⟩

theorem strFoldl_data (ss : List String) (init : String) :
    (ss.foldl (· ++ ·) init).data = init.data ++ (ss.map String.data).flatten := by
  induction ss generalizing init with
  | nil => simp
  | cons s ss ih => simp [List.foldl_cons, ih, List.append_assoc]

theorem strJoin_data (ss : List String) :
    (String.join ss).data = (ss.map String.data).flatten := by
  have h := strFoldl_data ss ""
  simp only [String.data] at h
  exact h

theorem flatten_map_singleton (cs : List Char) :
    (cs.map (fun c => [c])).flatten = cs := by
  induction cs with
  | nil => rfl
  | cons c cs ih => simp [ih]

/-- tokens not marked `removed` carry, in order, exactly the right-side
tokens of the runs. -/
theorem tokens_nonRemoved_flatten (val : α → List Char) (parts : List (Part α)) :
    (((parts.map (partToToken val)).filter
        (fun t => t.status ≠ TokStatus.removed)).map (fun t => t.value.data)).flatten
      = ((partsRight parts).map val).flatten := by
  induction parts with
  | nil => rfl
  | cons p parts ih =>
    have hr : partsRight (p :: parts) = p.rightVals ++ partsRight parts := rfl
    simp only [ne_eq, decide_not] at ih
    cases p with
    | eqP ps =>
      simp [partToToken, partStatus, partValue, hr, Part.rightVals, ih,
        List.filter_cons, List.map_map, Function.comp_def]
    | addP vs =>
      simp [partToToken, partStatus, partValue, hr, Part.rightVals, ih,
        List.filter_cons]
    | remP vs =>
      simp [partToToken, partStatus, partValue, hr, Part.rightVals, ih,
        List.filter_cons]

/-- tokens not marked `added` carry, in order, exactly the left-side tokens
of the runs, provided every kept pair is a pair of equal tokens. -/
theorem tokens_nonAdded_flatten (val : α → List Char) (parts : List (Part α))
    (hdiag : ∀ ps, Part.eqP ps ∈ parts → ∀ pr ∈ ps, pr.1 = pr.2) :
    (((parts.map (partToToken val)).filter
        (fun t => t.status ≠ TokStatus.added)).map (fun t => t.value.data)).flatten
      = ((partsLeft parts).map val).flatten := by
  induction parts with
  | nil => rfl
  | cons p parts ih =>
    have hl : partsLeft (p :: parts) = p.leftVals ++ partsLeft parts := rfl
    have ih' := ih (fun ps hps => hdiag ps (List.mem_cons_of_mem _ hps))
    simp only [ne_eq, decide_not] at ih'
    cases p with
    | eqP ps =>
      have hmap : List.map (fun pr => val pr.1) ps = List.map (fun pr => val pr.2) ps :=
        List.map_congr_left (fun pr hpr =>
          by rw [hdiag ps (List.mem_cons_self _ _) pr hpr])
      simp [partToToken, partStatus, partValue, hl, Part.leftVals, ih',
        List.filter_cons, List.map_map, Function.comp_def, ← hmap]
    | addP vs =>
      simp [partToToken, partStatus, partValue, hl, Part.leftVals, ih',
        List.filter_cons]
    | remP vs =>
      simp [partToToken, partStatus, partValue, hl, Part.leftVals, ih',
        List.filter_cons]

/-- for a diff taken under exact (lawful `==`) equality, every kept pair of
the coalesced runs is a pair of equal tokens. -/
theorem coalesce_diffBy_diag {α : Type} [BEq α] [LawfulBEq α] (as bs : List α) :
    ∀ ps, Part.eqP ps ∈ coalesce (diffBy (· == ·) as bs) → ∀ pr ∈ ps, pr.1 = pr.2 := by
  intro ps hps pr hpr
  exact eq_of_beq (diffSegs_eq_mem _ _ _ _ (coalesce_eqPair_mem hps hpr))

theorem strJoin_tokens_data (ts : List WordToken) :
    (String.join (ts.map WordToken.value)).data = (ts.map (fun t => t.value.data)).flatten := by
  rw [strJoin_data, List.map_map]
  rfl

/-- edit-script correctness of the word-level inline differ, left side. -/
theorem diffWordsWithSpace_left (a b : String) :
    String.join (((diffWordsWithSpace a b).filter
      (fun t => t.status ≠ TokStatus.added)).map WordToken.value) = a := by
  apply String.ext
  rw [strJoin_tokens_data]
  unfold diffWordsWithSpace
  rw [List.filter_map, List.map_map]
  have := tokens_nonAdded_flatten id
    (coalesce (diffBy (· == ·) (tokenizeWS a.data) (tokenizeWS b.data)))
    (coalesce_diffBy_diag _ _)
  rw [List.filter_map, List.map_map] at this
  rw [this, partsLeft_coalesce, List.map_id, segsLeft_diffBy, tokenizeWS_flatten]

/-- edit-script correctness of the word-level inline differ, right side. -/
theorem diffWordsWithSpace_right (a b : String) :
    String.join (((diffWordsWithSpace a b).filter
      (fun t => t.status ≠ TokStatus.removed)).map WordToken.value) = b := by
  apply String.ext
  rw [strJoin_tokens_data]
  unfold diffWordsWithSpace
  rw [List.filter_map, List.map_map]
  have := tokens_nonRemoved_flatten id
    (coalesce (diffBy (· == ·) (tokenizeWS a.data) (tokenizeWS b.data)))
  rw [List.filter_map, List.map_map] at this
  rw [this, partsRight_coalesce, List.map_id, segsRight_diffBy, tokenizeWS_flatten]

/-- edit-script correctness of the character differ, left side. -/
theorem diffChars_left (a b : String) :
    String.join (((diffChars a b).filter
      (fun t => t.status ≠ TokStatus.added)).map WordToken.value) = a := by
  apply String.ext
  rw [strJoin_tokens_data]
  unfold diffChars
  rw [List.filter_map, List.map_map]
  have := tokens_nonAdded_flatten (fun c => [c])
    (coalesce (diffBy (· == ·) a.data b.data)) (coalesce_diffBy_diag _ _)
  rw [List.filter_map, List.map_map] at this
  rw [this, partsLeft_coalesce, segsLeft_diffBy, flatten_map_singleton]

/-- edit-script correctness of the character differ, right side. -/
theorem diffChars_right (a b : String) :
    String.join (((diffChars a b).filter
      (fun t => t.status ≠ TokStatus.removed)).map WordToken.value) = b := by
  apply String.ext
  rw [strJoin_tokens_data]
  unfold diffChars
  rw [List.filter_map, List.map_map]
  have := tokens_nonRemoved_flatten (fun c => [c])
    (coalesce (diffBy (· == ·) a.data b.data))
  rw [List.filter_map, List.map_map] at this
  rw [this, partsRight_coalesce, segsRight_diffBy, flatten_map_singleton]

theorem leftDiffs_contents (ds : List WordToken) :
    ((ds.filterMap (fun d =>
      match d.status with
      | .added => none
      | .removed => some (⟨.delete, d.value⟩ : DiffItem)
      | .unchanged => some ⟨.equal, d.value⟩)).map DiffItem.content)
      = ((ds.filter (fun t => t.status ≠ TokStatus.added)).map WordToken.value) := by
  induction ds with
  | nil => rfl
  | cons d ds ih =>
    cases h : d.status <;> simp [List.filterMap_cons, List.filter_cons, h, ih]

theorem rightDiffs_contents (ds : List WordToken) :
    ((ds.filterMap (fun d =>
      match d.status with
      | .added => some (⟨.insert, d.value⟩ : DiffItem)
      | .removed => none
      | .unchanged => some ⟨.equal, d.value⟩)).map DiffItem.content)
      = ((ds.filter (fun t => t.status ≠ TokStatus.removed)).map WordToken.value) := by
  induction ds with
  | nil => rfl
  | cons d ds ih =>
    cases h : d.status <;> simp [List.filterMap_cons, List.filter_cons, h, ih]

/-- C1 (amended): for any two strings `a` and `b`, the diff produced by the
inline differ (`diffWordsWithSpace`, the spec's `diffText`) and by the js
`compareDocuments` (character diff) is a true edit script: concatenating
token text while excluding `added` tokens reconstructs `a` exactly, and
excluding `removed` tokens reconstructs `b` exactly (for `compareDocuments`
the two output arrays already exclude the opposite side's tokens).  The
TypeScript `compareDocuments`, which calls the library's whitespace-
insensitive `diffWords`, does not have this property — see the
counterexample below. -/
theorem claim_C1_edit_script (a b : String) :
    String.join (((diffWordsWithSpace a b).filter
      (fun t => t.status ≠ TokStatus.added)).map WordToken.value) = a ∧
    String.join (((diffWordsWithSpace a b).filter
      (fun t => t.status ≠ TokStatus.removed)).map WordToken.value) = b ∧
    String.join ((compareDocuments a b).leftDiffs.map DiffItem.content) = a ∧
    String.join ((compareDocuments a b).rightDiffs.map DiffItem.content) = b := by
  refine ⟨diffWordsWithSpace_left a b, diffWordsWithSpace_right a b, ?_, ?_⟩
  · show String.join (((diffChars a b).filterMap _).map DiffItem.content) = a
    rw [leftDiffs_contents]
    exact diffChars_left a b
  · show String.join (((diffChars a b).filterMap _).map DiffItem.content) = b
    rw [rightDiffs_contents]
    exact diffChars_right a b

/-- C1 counterexample: the TypeScript `compareDocuments` diffs with the
library's `diffWords`, whose default whitespace-insensitive token equality
treats `"x  y"` and `"x y"` as one kept run carrying the right-hand
spelling, so excluding `added` tokens yields `"x y"` and does NOT
reconstruct the left input `"x  y"`. -/
theorem claim_C1_counterexample :
    diffWordsTs "x  y" "x y" = [⟨"x y", TokStatus.unchanged⟩] ∧
    String.join (((diffWordsTs "x  y" "x y").filter
      (fun t => t.status ≠ TokStatus.added)).map WordToken.value) ≠ "x  y" ∧
    String.join ((compareDocumentsTs "x  y" "x y").leftDiffs.map DiffItem.content)
      ≠ "x  y" := by
  decide

/-- one block-level line collected by `collectLinesWithStructure`: its
(already trimmed) text and its rendered height; the `Line` value itself
stands for the DOM element reference (`element`), so entries that point back
at a line model the source's element references.  The per-line style record
is presentational only and is not modelled. -/
structure Line where
  text : String
  height : Nat := 20
deriving DecidableEq, Repr

/-- classification a line receives in the aligned output. -/
inductive EType where
  | unchanged | added | removed | modified | placeholder
deriving DecidableEq, Repr

/-- one entry of the aligned output arrays, modelling the objects pushed
into `leftResult` / `rightResult` (textComparison.js lines 123-380).  The
source also stores `lineNumber`, which is always the entry's index in its
array, so it is left implicit here. -/
structure Entry where
  type : EType
  content : String
  element : Option Line := none
  otherContent : Option String := none
  otherLine : Option Line := none
  height : Option Nat := none
deriving DecidableEq, Repr

/-- entries produced for one position of an added part (js lines 132-172):
a real entry on the right and a placeholder on the left; returns
(left entry, right entry, additions increment). -/
def addedEntryOf : Option Line → Entry × Entry × Nat
  | some rl =>
    if jsTrim rl.text ≠ "" then
      ({ type := .placeholder, content := "", element := none,
         otherLine := some rl, height := some rl.height },
       { type := .added, content := rl.text, element := some rl }, 1)
    else
      ({ type := .placeholder, content := "", element := none,
         otherLine := some rl, height := some rl.height },
       { type := .unchanged, content := rl.text, element := some rl }, 0)
  | none =>
      ({ type := .placeholder, content := "", element := none,
         otherLine := none, height := some 20 },
       { type := .unchanged, content := "", element := none }, 0)

/-- entries produced for one position of a removed part (js lines 242-276
and 322-356): a real entry on the left and a placeholder on the right;
returns (left entry, right entry, deletions increment). -/
def removedEntryOf : Option Line → Entry × Entry × Nat
  | some ll =>
    if jsTrim ll.text ≠ "" then
      ({ type := .removed, content := ll.text, element := some ll },
       { type := .placeholder, content := "", element := none,
         otherLine := some ll, height := some ll.height }, 1)
    else
      ({ type := .unchanged, content := ll.text, element := some ll },
       { type := .placeholder, content := "", element := none,
         otherLine := some ll, height := some ll.height }, 0)
  | none =>
      ({ type := .unchanged, content := "", element := none },
       { type := .placeholder, content := "", element := none,
         otherLine := none, height := some 20 }, 0)

/-- fallback of the pairing loop (js lines 224-238), taken when either line
is missing or blank: the non-blank left line is marked removed, the
non-blank right line added, blank or missing lines unchanged, and the
summary is not touched. -/
def pairFallback (oL oR : Option Line) : Entry × Entry × Nat × Nat :=
  ({ type := match oL with
       | some ll => if jsTrim ll.text ≠ "" then .removed else .unchanged
       | none => .unchanged,
     content := match oL with | some ll => ll.text | none => "",
     element := oL },
   { type := match oR with
       | some rl => if jsTrim rl.text ≠ "" then .added else .unchanged
       | none => .unchanged,
     content := match oR with | some rl => rl.text | none => "",
     element := oR }, 0, 0)

/-- entries produced for one paired position of a removed-then-added part
pair (js lines 184-239); returns (left entry, right entry, additions
increment, deletions increment). -/
def pairEntryOf : Option Line → Option Line → Entry × Entry × Nat × Nat
  | some ll, some rl =>
    if jsTrim ll.text ≠ "" ∧ jsTrim rl.text ≠ "" then
      if jsTrim ll.text ≠ jsTrim rl.text then
        ({ type := .modified, content := ll.text, otherContent := some rl.text,
           element := some ll, otherLine := some rl },
         { type := .modified, content := rl.text, otherContent := some ll.text,
           element := some rl, otherLine := some ll }, 1, 1)
      else
        ({ type := .unchanged, content := ll.text, element := some ll },
         { type := .unchanged, content := rl.text, element := some rl }, 0, 0)
    else pairFallback (some ll) (some rl)
  | oL, oR => pairFallback oL oR

/-- entries produced for one position of an equal part (js lines 362-377). -/
def equalEntryOf (oL oR : Option Line) : Entry × Entry :=
  ({ type := .unchanged,
     content := match oL with | some ll => ll.text | none => "",
     element := oL },
   { type := .unchanged,
     content := match oR with | some rl => rl.text | none => "",
     element := oR })

/-- result of the line aligner: the two index-aligned entry arrays and the
text summary (`{additions, deletions}`). -/
structure AlignOut where
  left : List Entry
  right : List Entry
  additions : Nat
  deletions : Nat
deriving DecidableEq, Repr

/-- the loop body of `createTrueLineAlignment` (js lines 129-380), processing
the diff parts in order.  The original indexes `leftLines[iLeft + k]`; here
the not-yet-consumed suffixes of the two line lists are passed along, so
`ls[k]?` is the original's `leftLines[iLeft + k] || null`.  A removed part
immediately followed by an added part is the modification-pairing case; the
three blocks are the source's three inner loops in order. -/
def addedBlock (rs : List Line) (s n : Nat) : List (Entry × Entry × Nat) :=
  (List.range' s n).map (fun k => addedEntryOf rs[k]?)

def removedBlock (ls : List Line) (s n : Nat) : List (Entry × Entry × Nat) :=
  (List.range' s n).map (fun k => removedEntryOf ls[k]?)

def pairBlock (ls rs : List Line) (s n : Nat) : List (Entry × Entry × Nat × Nat) :=
  (List.range' s n).map (fun k => pairEntryOf ls[k]? rs[k]?)

def equalBlock (ls rs : List Line) (s n : Nat) : List (Entry × Entry) :=
  (List.range' s n).map (fun k => equalEntryOf ls[k]? rs[k]?)

def alignGo : List (Part String) → List Line → List Line → AlignOut
  | [], _, _ => ⟨[], [], 0, 0⟩
  | .addP vs :: rest, ls, rs =>
    let b := addedBlock rs 0 vs.length
    let o := alignGo rest ls (rs.drop vs.length)
    ⟨b.map (fun x => x.1) ++ o.left, b.map (fun x => x.2.1) ++ o.right,
     (b.map (fun x => x.2.2)).sum + o.additions, o.deletions⟩
  | .remP vs :: .addP ws :: rest, ls, rs =>
    let pc := min vs.length ws.length
    let pb := pairBlock ls rs 0 pc
    let rb := removedBlock ls pc (vs.length - pc)
    let ab := addedBlock rs pc (ws.length - pc)
    let o := alignGo rest (ls.drop vs.length) (rs.drop ws.length)
    ⟨pb.map (fun x => x.1) ++ rb.map (fun x => x.1) ++ ab.map (fun x => x.1) ++ o.left,
     pb.map (fun x => x.2.1) ++ rb.map (fun x => x.2.1) ++ ab.map (fun x => x.2.1) ++ o.right,
     (pb.map (fun x => x.2.2.1)).sum + (ab.map (fun x => x.2.2)).sum + o.additions,
     (pb.map (fun x => x.2.2.2)).sum + (rb.map (fun x => x.2.2)).sum + o.deletions⟩
  | .remP vs :: rest, ls, rs =>
    let b := removedBlock ls 0 vs.length
    let o := alignGo rest (ls.drop vs.length) rs
    ⟨b.map (fun x => x.1) ++ o.left, b.map (fun x => x.2.1) ++ o.right,
     o.additions, (b.map (fun x => x.2.2)).sum + o.deletions⟩
  | .eqP ps :: rest, ls, rs =>
    let b := equalBlock ls rs 0 ps.length
    let o := alignGo rest (ls.drop ps.length) (rs.drop ps.length)
    ⟨b.map (fun x => x.1) ++ o.left, b.map (fun x => x.2) ++ o.right,
     o.additions, o.deletions⟩

/-- comparator used by the aligner's `diffArrays` call:
`(a, b) => a.trim() === b.trim()`. -/
def lineCmp (a b : String) : Bool := jsTrim a == jsTrim b

/-- model of `createTrueLineAlignment` (js lines 114-383): array-diff the
two text sequences under the trimming comparator, then process the parts. -/
def createTrueLineAlignment (ls rs : List Line) : AlignOut :=
  alignGo (coalesce (diffBy lineCmp (ls.map Line.text) (rs.map Line.text))) ls rs

theorem range'_map_getElem {β γ : Type} (l : List β) (f : Option β → γ) :
    ∀ (n s : Nat), s + n ≤ l.length →
      (List.range' s n).map (fun k => f l[k]?)
        = ((l.drop s).take n).map (fun x => f (some x)) := by
  intro n
  induction n with
  | zero => intro s _; simp
  | succ n ih =>
    intro s hs
    have hlt : s < l.length := by omega
    have hdrop : l.drop s = l[s] :: l.drop (s + 1) := List.drop_eq_getElem_cons hlt
    have hr : List.range' s (n + 1) = s :: List.range' (s + 1) n := rfl
    rw [hr, List.map_cons, ih (s + 1) (by omega), hdrop, List.take_succ_cons,
      List.map_cons, List.getElem?_eq_getElem hlt]

theorem range'_map_getElem₂ {β γ : Type} (l m : List β) (f : Option β → Option β → γ) :
    ∀ (n s : Nat), s + n ≤ l.length → s + n ≤ m.length →
      (List.range' s n).map (fun k => f l[k]? m[k]?)
        = (((l.drop s).take n).zip ((m.drop s).take n)).map
            (fun pr => f (some pr.1) (some pr.2)) := by
  intro n
  induction n with
  | zero => intro s _ _; simp
  | succ n ih =>
    intro s hl hm
    have hllt : s < l.length := by omega
    have hmlt : s < m.length := by omega
    have hr : List.range' s (n + 1) = s :: List.range' (s + 1) n := rfl
    rw [hr, List.map_cons, ih (s + 1) (by omega) (by omega),
      List.drop_eq_getElem_cons hllt, List.drop_eq_getElem_cons hmlt,
      List.take_succ_cons, List.take_succ_cons, List.zip_cons_cons, List.map_cons,
      List.getElem?_eq_getElem hllt, List.getElem?_eq_getElem hmlt]

theorem filter_map_content {γ : Type} (l : List γ) (f : γ → Entry) (g : γ → String)
    (e : γ → Option Line) (hty : ∀ x, (f x).type ≠ EType.placeholder)
    (hc : ∀ x, (f x).content = g x) (he : ∀ x, (f x).element = e x) :
    ((l.map f).filter (fun x => x.type ≠ EType.placeholder)).map
        (fun x => (x.content, x.element))
      = l.map (fun x => (g x, e x)) := by
  induction l with
  | nil => rfl
  | cons x l ih =>
    simp only [ne_eq, decide_not] at ih ⊢
    simp [List.filter_cons, hty x, hc x, he x, ih]

theorem filter_map_placeholder {γ : Type} (l : List γ) (f : γ → Entry)
    (hty : ∀ x, (f x).type = EType.placeholder) :
    (l.map f).filter (fun x => x.type ≠ EType.placeholder) = [] := by
  induction l with
  | nil => rfl
  | cons x l ih =>
    simp only [List.map_cons, List.filter_cons]
    rw [if_neg]
    · exact ih
    · simp [hty x]

theorem addedEntryOf_left_type (o : Option Line) :
    (addedEntryOf o).1.type = EType.placeholder := by
  cases o with
  | none => rfl
  | some rl => by_cases h : jsTrim rl.text = "" <;> simp [addedEntryOf, h]

theorem addedEntryOf_right_type (o : Option Line) :
    (addedEntryOf o).2.1.type ≠ EType.placeholder := by
  cases o with
  | none => simp [addedEntryOf]
  | some rl => by_cases h : jsTrim rl.text = "" <;> simp [addedEntryOf, h]

theorem addedEntryOf_right_content (x : Line) :
    (addedEntryOf (some x)).2.1.content = x.text := by
  by_cases h : jsTrim x.text = "" <;> simp [addedEntryOf, h]

theorem addedEntryOf_right_element (x : Line) :
    (addedEntryOf (some x)).2.1.element = some x := by
  by_cases h : jsTrim x.text = "" <;> simp [addedEntryOf, h]

theorem removedEntryOf_right_type (o : Option Line) :
    (removedEntryOf o).2.1.type = EType.placeholder := by
  cases o with
  | none => rfl
  | some ll => by_cases h : jsTrim ll.text = "" <;> simp [removedEntryOf, h]

theorem removedEntryOf_left_type (o : Option Line) :
    (removedEntryOf o).1.type ≠ EType.placeholder := by
  cases o with
  | none => simp [removedEntryOf]
  | some ll => by_cases h : jsTrim ll.text = "" <;> simp [removedEntryOf, h]

theorem removedEntryOf_left_content (x : Line) :
    (removedEntryOf (some x)).1.content = x.text := by
  by_cases h : jsTrim x.text = "" <;> simp [removedEntryOf, h]

theorem removedEntryOf_left_element (x : Line) :
    (removedEntryOf (some x)).1.element = some x := by
  by_cases h : jsTrim x.text = "" <;> simp [removedEntryOf, h]

theorem pairEntryOf_left_type (a b : Line) :
    (pairEntryOf (some a) (some b)).1.type ≠ EType.placeholder := by
  simp only [pairEntryOf, pairFallback]
  repeat' split
  all_goals simp

theorem pairEntryOf_right_type (a b : Line) :
    (pairEntryOf (some a) (some b)).2.1.type ≠ EType.placeholder := by
  simp only [pairEntryOf, pairFallback]
  repeat' split
  all_goals simp

theorem pairEntryOf_left_content (a b : Line) :
    (pairEntryOf (some a) (some b)).1.content = a.text := by
  simp only [pairEntryOf, pairFallback]
  repeat' split
  all_goals simp

theorem pairEntryOf_right_content (a b : Line) :
    (pairEntryOf (some a) (some b)).2.1.content = b.text := by
  simp only [pairEntryOf, pairFallback]
  repeat' split
  all_goals simp

theorem pairEntryOf_left_element (a b : Line) :
    (pairEntryOf (some a) (some b)).1.element = some a := by
  simp only [pairEntryOf, pairFallback]
  repeat' split
  all_goals simp

theorem pairEntryOf_right_element (a b : Line) :
    (pairEntryOf (some a) (some b)).2.1.element = some b := by
  simp only [pairEntryOf, pairFallback]
  repeat' split
  all_goals simp

theorem addedBlock_eq (rs : List Line) (s n : Nat) (h : s + n ≤ rs.length) :
    addedBlock rs s n = ((rs.drop s).take n).map (fun x => addedEntryOf (some x)) :=
  range'_map_getElem rs addedEntryOf n s h

theorem removedBlock_eq (ls : List Line) (s n : Nat) (h : s + n ≤ ls.length) :
    removedBlock ls s n = ((ls.drop s).take n).map (fun x => removedEntryOf (some x)) :=
  range'_map_getElem ls removedEntryOf n s h

theorem pairBlock_eq (ls rs : List Line) (s n : Nat)
    (h1 : s + n ≤ ls.length) (h2 : s + n ≤ rs.length) :
    pairBlock ls rs s n = (((ls.drop s).take n).zip ((rs.drop s).take n)).map
      (fun pr => pairEntryOf (some pr.1) (some pr.2)) :=
  range'_map_getElem₂ ls rs pairEntryOf n s h1 h2

theorem equalBlock_eq (ls rs : List Line) (s n : Nat)
    (h1 : s + n ≤ ls.length) (h2 : s + n ≤ rs.length) :
    equalBlock ls rs s n = (((ls.drop s).take n).zip ((rs.drop s).take n)).map
      (fun pr => equalEntryOf (some pr.1) (some pr.2)) :=
  range'_map_getElem₂ ls rs equalEntryOf n s h1 h2

theorem addedBlock_left_filter (rs : List Line) (s n : Nat) :
    ((addedBlock rs s n).map (fun x => x.1)).filter
      (fun x => x.type ≠ EType.placeholder) = [] := by
  unfold addedBlock
  rw [List.map_map]
  exact filter_map_placeholder _ _ (fun k => addedEntryOf_left_type rs[k]?)

theorem removedBlock_right_filter (ls : List Line) (s n : Nat) :
    ((removedBlock ls s n).map (fun x => x.2.1)).filter
      (fun x => x.type ≠ EType.placeholder) = [] := by
  unfold removedBlock
  rw [List.map_map]
  exact filter_map_placeholder _ _ (fun k => removedEntryOf_right_type ls[k]?)

theorem addedBlock_right_filter (rs : List Line) (n : Nat) (h : n ≤ rs.length) :
    (((addedBlock rs 0 n).map (fun x => x.2.1)).filter
      (fun x => x.type ≠ EType.placeholder)).map (fun x => (x.content, x.element))
    = (rs.take n).map (fun l => (l.text, some l)) := by
  rw [addedBlock_eq rs 0 n (by omega), List.drop_zero, List.map_map]
  exact filter_map_content _ _ _ _ (fun x => addedEntryOf_right_type (some x))
    (fun x => addedEntryOf_right_content x) (fun x => addedEntryOf_right_element x)

theorem addedBlock_right_filter' (rs : List Line) (s n : Nat) (h : s + n ≤ rs.length) :
    (((addedBlock rs s n).map (fun x => x.2.1)).filter
      (fun x => x.type ≠ EType.placeholder)).map (fun x => (x.content, x.element))
    = ((rs.drop s).take n).map (fun l => (l.text, some l)) := by
  rw [addedBlock_eq rs s n h, List.map_map]
  exact filter_map_content _ _ _ _ (fun x => addedEntryOf_right_type (some x))
    (fun x => addedEntryOf_right_content x) (fun x => addedEntryOf_right_element x)

theorem removedBlock_left_filter (ls : List Line) (s n : Nat) (h : s + n ≤ ls.length) :
    (((removedBlock ls s n).map (fun x => x.1)).filter
      (fun x => x.type ≠ EType.placeholder)).map (fun x => (x.content, x.element))
    = ((ls.drop s).take n).map (fun l => (l.text, some l)) := by
  rw [removedBlock_eq ls s n h, List.map_map]
  exact filter_map_content _ _ _ _ (fun x => removedEntryOf_left_type (some x))
    (fun x => removedEntryOf_left_content x) (fun x => removedEntryOf_left_element x)

theorem zip_map_fst (ls rs : List Line) (n : Nat) (h1 : n ≤ ls.length) (h2 : n ≤ rs.length) :
    ((ls.take n).zip (rs.take n)).map (fun pr => (pr.1.text, some pr.1))
      = (ls.take n).map (fun x => (x.text, some x)) := by
  rw [show (fun pr : Line × Line => (pr.1.text, some pr.1))
      = (fun x : Line => (x.text, some x)) ∘ Prod.fst from rfl]
  rw [← List.map_map, List.map_fst_zip]
  simp only [List.length_take]
  omega

theorem zip_map_snd (ls rs : List Line) (n : Nat) (h1 : n ≤ ls.length) (h2 : n ≤ rs.length) :
    ((ls.take n).zip (rs.take n)).map (fun pr => (pr.2.text, some pr.2))
      = (rs.take n).map (fun x => (x.text, some x)) := by
  rw [show (fun pr : Line × Line => (pr.2.text, some pr.2))
      = (fun x : Line => (x.text, some x)) ∘ Prod.snd from rfl]
  rw [← List.map_map, List.map_snd_zip]
  simp only [List.length_take]
  omega

theorem pairBlock_left_filter (ls rs : List Line) (n : Nat)
    (h1 : n ≤ ls.length) (h2 : n ≤ rs.length) :
    (((pairBlock ls rs 0 n).map (fun x => x.1)).filter
      (fun x => x.type ≠ EType.placeholder)).map (fun x => (x.content, x.element))
    = (ls.take n).map (fun l => (l.text, some l)) := by
  rw [pairBlock_eq ls rs 0 n (by omega) (by omega), List.drop_zero, List.drop_zero,
    List.map_map]
  have h := filter_map_content ((ls.take n).zip (rs.take n))
      ((fun x : Entry × Entry × Nat × Nat => x.1) ∘
        fun pr : Line × Line => pairEntryOf (some pr.1) (some pr.2))
      (fun pr => pr.1.text) (fun pr => some pr.1)
      (fun pr => pairEntryOf_left_type pr.1 pr.2)
      (fun pr => pairEntryOf_left_content pr.1 pr.2)
      (fun pr => pairEntryOf_left_element pr.1 pr.2)
  rw [h]
  exact zip_map_fst ls rs n h1 h2

theorem pairBlock_right_filter (ls rs : List Line) (n : Nat)
    (h1 : n ≤ ls.length) (h2 : n ≤ rs.length) :
    (((pairBlock ls rs 0 n).map (fun x => x.2.1)).filter
      (fun x => x.type ≠ EType.placeholder)).map (fun x => (x.content, x.element))
    = (rs.take n).map (fun l => (l.text, some l)) := by
  rw [pairBlock_eq ls rs 0 n (by omega) (by omega), List.drop_zero, List.drop_zero,
    List.map_map]
  have h := filter_map_content ((ls.take n).zip (rs.take n))
      ((fun x : Entry × Entry × Nat × Nat => x.2.1) ∘
        fun pr : Line × Line => pairEntryOf (some pr.1) (some pr.2))
      (fun pr => pr.2.text) (fun pr => some pr.2)
      (fun pr => pairEntryOf_right_type pr.1 pr.2)
      (fun pr => pairEntryOf_right_content pr.1 pr.2)
      (fun pr => pairEntryOf_right_element pr.1 pr.2)
  rw [h]
  exact zip_map_snd ls rs n h1 h2

theorem equalBlock_left_filter (ls rs : List Line) (n : Nat)
    (h1 : n ≤ ls.length) (h2 : n ≤ rs.length) :
    (((equalBlock ls rs 0 n).map (fun x => x.1)).filter
      (fun x => x.type ≠ EType.placeholder)).map (fun x => (x.content, x.element))
    = (ls.take n).map (fun l => (l.text, some l)) := by
  rw [equalBlock_eq ls rs 0 n (by omega) (by omega), List.drop_zero, List.drop_zero,
    List.map_map]
  have h := filter_map_content ((ls.take n).zip (rs.take n))
      ((fun x : Entry × Entry => x.1) ∘
        fun pr : Line × Line => equalEntryOf (some pr.1) (some pr.2))
      (fun pr => pr.1.text) (fun pr => some pr.1)
      (fun pr => by simp [equalEntryOf]) (fun pr => rfl) (fun pr => rfl)
  rw [h]
  exact zip_map_fst ls rs n h1 h2

theorem equalBlock_right_filter (ls rs : List Line) (n : Nat)
    (h1 : n ≤ ls.length) (h2 : n ≤ rs.length) :
    (((equalBlock ls rs 0 n).map (fun x => x.2)).filter
      (fun x => x.type ≠ EType.placeholder)).map (fun x => (x.content, x.element))
    = (rs.take n).map (fun l => (l.text, some l)) := by
  rw [equalBlock_eq ls rs 0 n (by omega) (by omega), List.drop_zero, List.drop_zero,
    List.map_map]
  have h := filter_map_content ((ls.take n).zip (rs.take n))
      ((fun x : Entry × Entry => x.2) ∘
        fun pr : Line × Line => equalEntryOf (some pr.1) (some pr.2))
      (fun pr => pr.2.text) (fun pr => some pr.2)
      (fun pr => by simp [equalEntryOf]) (fun pr => rfl) (fun pr => rfl)
  rw [h]
  exact zip_map_snd ls rs n h1 h2

/-- the aligner's output, filtered down to entries that stand for a real
line (non-placeholders) and projected to their text and element reference,
reproduces exactly the corresponding input line sequence. -/
theorem alignGo_partition (parts : List (Part String)) (ls rs : List Line)
    (hL : (partsLeft parts).length = ls.length)
    (hR : (partsRight parts).length = rs.length) :
    ((alignGo parts ls rs).left.filter (fun x => x.type ≠ EType.placeholder)).map
        (fun x => (x.content, x.element)) = ls.map (fun l => (l.text, some l)) ∧
    ((alignGo parts ls rs).right.filter (fun x => x.type ≠ EType.placeholder)).map
        (fun x => (x.content, x.element)) = rs.map (fun l => (l.text, some l)) := by
  induction parts, ls, rs using alignGo.induct with
  | case1 ls rs =>
    have h1 : ls = [] := List.eq_nil_of_length_eq_zero (by simpa [partsLeft] using hL.symm)
    have h2 : rs = [] := List.eq_nil_of_length_eq_zero (by simpa [partsRight] using hR.symm)
    subst h1 h2
    simp [alignGo]
  | case2 vs rest ls rs ih =>
    have hlen : partsLeft (Part.addP vs :: rest) = partsLeft rest := rfl
    have hrlen : partsRight (Part.addP vs :: rest) = vs ++ partsRight rest := rfl
    rw [hlen] at hL
    rw [hrlen, List.length_append] at hR
    have hvs : vs.length ≤ rs.length := by omega
    have ih' := ih hL (by simp; omega)
    simp only [alignGo, List.filter_append, List.map_append]
    constructor
    · rw [addedBlock_left_filter rs 0 vs.length]
      simpa using ih'.1
    · rw [addedBlock_right_filter rs vs.length hvs, ih'.2, ← List.map_append,
        List.take_append_drop]
  | case3 vs ws rest ls rs ih =>
    have hlen : partsLeft (Part.remP vs :: Part.addP ws :: rest)
        = vs ++ partsLeft rest := rfl
    have hrlen : partsRight (Part.remP vs :: Part.addP ws :: rest)
        = ws ++ partsRight rest := rfl
    rw [hlen, List.length_append] at hL
    rw [hrlen, List.length_append] at hR
    have hvs : vs.length ≤ ls.length := by omega
    have hws : ws.length ≤ rs.length := by omega
    have hpc1 : min vs.length ws.length ≤ vs.length := Nat.min_le_left _ _
    have hpc2 : min vs.length ws.length ≤ ws.length := Nat.min_le_right _ _
    have ih' := ih (by simp; omega) (by simp; omega)
    simp only [alignGo, List.filter_append, List.map_append]
    constructor
    · rw [pairBlock_left_filter ls rs (min vs.length ws.length) (by omega) (by omega)]
      rw [removedBlock_left_filter ls (min vs.length ws.length)
        (vs.length - min vs.length ws.length) (by omega)]
      rw [addedBlock_left_filter rs (min vs.length ws.length)
        (ws.length - min vs.length ws.length)]
      rw [ih'.1]
      rw [List.map_nil, List.append_nil, ← List.map_append, ← List.take_add,
        Nat.add_sub_cancel' hpc1, ← List.map_append, List.take_append_drop]
    · rw [pairBlock_right_filter ls rs (min vs.length ws.length) (by omega) (by omega)]
      rw [removedBlock_right_filter ls (min vs.length ws.length)
        (vs.length - min vs.length ws.length)]
      rw [addedBlock_right_filter' rs (min vs.length ws.length)
        (ws.length - min vs.length ws.length) (by omega)]
      rw [ih'.2]
      rw [List.map_nil, List.append_nil, ← List.map_append, ← List.take_add,
        Nat.add_sub_cancel' hpc2, ← List.map_append, List.take_append_drop]
  | case4 vs rest ls rs hnadd ih =>
    have hlen : partsLeft (Part.remP vs :: rest) = vs ++ partsLeft rest := rfl
    have hrlen : partsRight (Part.remP vs :: rest) = partsRight rest := rfl
    rw [hlen, List.length_append] at hL
    rw [hrlen] at hR
    have hvs : vs.length ≤ ls.length := by omega
    have ih' := ih (by simp; omega) hR
    simp only [alignGo, List.filter_append, List.map_append]
    constructor
    · rw [removedBlock_left_filter ls 0 vs.length (by omega), List.drop_zero,
        ih'.1, ← List.map_append, List.take_append_drop]
    · rw [removedBlock_right_filter ls 0 vs.length]
      simpa using ih'.2
  | case5 ps rest ls rs ih =>
    have hlen : partsLeft (Part.eqP ps :: rest) = ps.map Prod.fst ++ partsLeft rest := rfl
    have hrlen : partsRight (Part.eqP ps :: rest) = ps.map Prod.snd ++ partsRight rest := rfl
    rw [hlen, List.length_append, List.length_map] at hL
    rw [hrlen, List.length_append, List.length_map] at hR
    have hps1 : ps.length ≤ ls.length := by omega
    have hps2 : ps.length ≤ rs.length := by omega
    have ih' := ih (by simp; omega) (by simp; omega)
    simp only [alignGo, List.filter_append, List.map_append]
    constructor
    · rw [equalBlock_left_filter ls rs ps.length hps1 hps2, ih'.1, ← List.map_append,
        List.take_append_drop]
    · rw [equalBlock_right_filter ls rs ps.length hps1 hps2, ih'.2, ← List.map_append,
        List.take_append_drop]

/-- C2: for any two input line sequences, the aligner's output partitions
both inputs: taking the non-placeholder entries of the left output array in
order gives back exactly the left lines (their text and their element
reference), and likewise on the right, so every input line appears in
exactly one output run and concatenating the runs reproduces each input
sequence exactly. -/
theorem claim_C2_run_coverage (ls rs : List Line) :
    ((createTrueLineAlignment ls rs).left.filter
        (fun x => x.type ≠ EType.placeholder)).map (fun x => (x.content, x.element))
      = ls.map (fun l => (l.text, some l)) ∧
    ((createTrueLineAlignment ls rs).right.filter
        (fun x => x.type ≠ EType.placeholder)).map (fun x => (x.content, x.element))
      = rs.map (fun l => (l.text, some l)) := by
  unfold createTrueLineAlignment
  apply alignGo_partition
  · rw [partsLeft_coalesce, segsLeft_diffBy, List.length_map]
  · rw [partsRight_coalesce, segsRight_diffBy, List.length_map]

/-- relation between the two panes' entries at one index: a placeholder is
only ever synthesized opposite a real (non-placeholder) entry, and it
carries in `otherLine` exactly the element reference of the entry it faces. -/
def panesOk (e1 e2 : Entry) : Prop :=
  (e1.type = EType.placeholder → e2.type ≠ EType.placeholder ∧ e1.otherLine = e2.element) ∧
  (e2.type = EType.placeholder → e1.type ≠ EType.placeholder ∧ e2.otherLine = e1.element)

theorem forall2_append {α β : Type} {R : α → β → Prop} {l1 u1 : List α} {l2 u2 : List β}
    (h1 : List.Forall₂ R l1 l2) (h2 : List.Forall₂ R u1 u2) :
    List.Forall₂ R (l1 ++ u1) (l2 ++ u2) := by
  induction h1 with
  | nil => exact h2
  | cons h t ih => exact List.Forall₂.cons h ih

theorem forall2_map_pair {γ α : Type} {R : α → α → Prop} (l : List γ) (f g : γ → α)
    (h : ∀ x ∈ l, R (f x) (g x)) :
    List.Forall₂ R (l.map f) (l.map g) := by
  induction l with
  | nil => simp
  | cons x l ih =>
    exact List.Forall₂.cons (h x (List.mem_cons_self _ _))
      (ih (fun y hy => h y (List.mem_cons_of_mem _ hy)))

theorem addedEntryOf_panesOk (o : Option Line) :
    panesOk (addedEntryOf o).1 (addedEntryOf o).2.1 := by
  cases o with
  | none => simp [panesOk, addedEntryOf]
  | some rl => by_cases h : jsTrim rl.text = "" <;> simp [panesOk, addedEntryOf, h]

theorem removedEntryOf_panesOk (o : Option Line) :
    panesOk (removedEntryOf o).1 (removedEntryOf o).2.1 := by
  cases o with
  | none => simp [panesOk, removedEntryOf]
  | some ll => by_cases h : jsTrim ll.text = "" <;> simp [panesOk, removedEntryOf, h]

theorem pairEntryOf_left_type_any (o1 o2 : Option Line) :
    (pairEntryOf o1 o2).1.type ≠ EType.placeholder := by
  cases o1 with
  | none => cases o2 <;> simp [pairEntryOf, pairFallback]
  | some a =>
    cases o2 with
    | none =>
      simp only [pairEntryOf, pairFallback]
      split <;> simp
    | some b => exact pairEntryOf_left_type a b

theorem pairEntryOf_right_type_any (o1 o2 : Option Line) :
    (pairEntryOf o1 o2).2.1.type ≠ EType.placeholder := by
  cases o2 with
  | none => cases o1 <;> simp [pairEntryOf, pairFallback]
  | some b =>
    cases o1 with
    | none =>
      simp only [pairEntryOf, pairFallback]
      split <;> simp
    | some a => exact pairEntryOf_right_type a b

theorem pairEntryOf_panesOk (o1 o2 : Option Line) :
    panesOk (pairEntryOf o1 o2).1 (pairEntryOf o1 o2).2.1 :=
  ⟨fun h => absurd h (pairEntryOf_left_type_any o1 o2),
   fun h => absurd h (pairEntryOf_right_type_any o1 o2)⟩

theorem equalEntryOf_panesOk (o1 o2 : Option Line) :
    panesOk (equalEntryOf o1 o2).1 (equalEntryOf o1 o2).2 := by
  simp [panesOk, equalEntryOf]

/-- every index of the two aligned output arrays relates a placeholder only
to a real entry carrying the matching element reference. -/
theorem alignGo_panes (parts : List (Part String)) (ls rs : List Line) :
    List.Forall₂ panesOk (alignGo parts ls rs).left (alignGo parts ls rs).right := by
  induction parts, ls, rs using alignGo.induct with
  | case1 ls rs => simp [alignGo]
  | case2 vs rest ls rs ih =>
    simp only [alignGo]
    refine forall2_append (forall2_map_pair _ _ _ ?_) ih
    intro x hx
    obtain ⟨k, hk, rfl⟩ := List.mem_map.mp hx
    exact addedEntryOf_panesOk rs[k]?
  | case3 vs ws rest ls rs ih =>
    simp only [alignGo]
    refine forall2_append (forall2_append (forall2_append
      (forall2_map_pair _ _ _ ?_) (forall2_map_pair _ _ _ ?_))
      (forall2_map_pair _ _ _ ?_)) ih
    · intro x hx
      obtain ⟨k, hk, rfl⟩ := List.mem_map.mp hx
      exact pairEntryOf_panesOk ls[k]? rs[k]?
    · intro x hx
      obtain ⟨k, hk, rfl⟩ := List.mem_map.mp hx
      exact removedEntryOf_panesOk ls[k]?
    · intro x hx
      obtain ⟨k, hk, rfl⟩ := List.mem_map.mp hx
      exact addedEntryOf_panesOk rs[k]?
  | case4 vs rest ls rs hnadd ih =>
    simp only [alignGo]
    refine forall2_append (forall2_map_pair _ _ _ ?_) ih
    intro x hx
    obtain ⟨k, hk, rfl⟩ := List.mem_map.mp hx
    exact removedEntryOf_panesOk ls[k]?
  | case5 ps rest ls rs ih =>
    simp only [alignGo]
    refine forall2_append (forall2_map_pair _ _ _ ?_) ih
    intro x hx
    obtain ⟨k, hk, rfl⟩ := List.mem_map.mp hx
    exact equalEntryOf_panesOk ls[k]? rs[k]?

/-- C10: the aligner's two output arrays always have equal length, and at
every index a placeholder on one side faces a real line entry on the other
side whose element reference the placeholder carries, so the two panes stay
index-aligned for any pair of inputs. -/
theorem claim_C10_index_aligned (ls rs : List Line) :
    (createTrueLineAlignment ls rs).left.length
      = (createTrueLineAlignment ls rs).right.length ∧
    List.Forall₂ panesOk (createTrueLineAlignment ls rs).left
      (createTrueLineAlignment ls rs).right := by
  have h := alignGo_panes (coalesce (diffBy lineCmp (ls.map Line.text)
    (rs.map Line.text))) ls rs
  exact ⟨h.length_eq, h⟩

theorem range'_getElem? (s n k : Nat) (h : k < n) :
    (List.range' s n)[k]? = some (s + k) := by
  rw [List.getElem?_eq_getElem (by simpa using h)]
  simp [List.getElem_range']

theorem pairBlock_getElem? (ls rs : List Line) (s n k : Nat) (h : k < n) :
    (pairBlock ls rs s n)[k]? = some (pairEntryOf ls[s + k]? rs[s + k]?) := by
  unfold pairBlock
  rw [List.getElem?_map, range'_getElem? s n k h]
  rfl

theorem removedBlock_getElem? (ls : List Line) (s n k : Nat) (h : k < n) :
    (removedBlock ls s n)[k]? = some (removedEntryOf ls[s + k]?) := by
  unfold removedBlock
  rw [List.getElem?_map, range'_getElem? s n k h]
  rfl

theorem addedBlock_getElem? (rs : List Line) (s n k : Nat) (h : k < n) :
    (addedBlock rs s n)[k]? = some (addedEntryOf rs[s + k]?) := by
  unfold addedBlock
  rw [List.getElem?_map, range'_getElem? s n k h]
  rfl

theorem pairEntryOf_types (a b : Line) :
    (pairEntryOf (some a) (some b)).1.type
      = (if jsTrim a.text ≠ "" ∧ jsTrim b.text ≠ "" then
          (if jsTrim a.text ≠ jsTrim b.text then EType.modified else EType.unchanged)
        else (if jsTrim a.text ≠ "" then EType.removed else EType.unchanged)) ∧
    (pairEntryOf (some a) (some b)).2.1.type
      = (if jsTrim a.text ≠ "" ∧ jsTrim b.text ≠ "" then
          (if jsTrim a.text ≠ jsTrim b.text then EType.modified else EType.unchanged)
        else (if jsTrim b.text ≠ "" then EType.added else EType.unchanged)) := by
  by_cases h1 : jsTrim a.text ≠ "" ∧ jsTrim b.text ≠ ""
  · by_cases h2 : jsTrim a.text ≠ jsTrim b.text <;>
      simp [pairEntryOf, pairFallback, h1, h2]
  · simp [pairEntryOf, pairFallback, h1]

theorem removedEntryOf_types (a : Line) :
    (removedEntryOf (some a)).1.type
        = (if jsTrim a.text ≠ "" then EType.removed else EType.unchanged) ∧
    (removedEntryOf (some a)).2.1.type = EType.placeholder := by
  by_cases h : jsTrim a.text = "" <;> simp [removedEntryOf, h]

theorem addedEntryOf_types (b : Line) :
    (addedEntryOf (some b)).1.type = EType.placeholder ∧
    (addedEntryOf (some b)).2.1.type
        = (if jsTrim b.text ≠ "" then EType.added else EType.unchanged) := by
  by_cases h : jsTrim b.text = "" <;> simp [addedEntryOf, h]

/-- C3 (amended): in the modification-pairing case of the aligner — a
removed part of length `R` immediately followed by an added part of length
`A` — the first `min(R, A)` positions are processed as pairs: a pair of two
non-blank lines with different trimmed text becomes a modified pair, with
equal trimmed text an unchanged pair, and a pair with a blank side marks
only its non-blank side (removed on the left, added on the right).  The
leftover `R - min(R, A)` removed lines become removed (deleted-only) when
non-blank and unchanged when blank, facing a placeholder; symmetrically for
the leftover added lines. -/
theorem claim_C3_pairing_amended (vs ws : List String) (rest : List (Part String))
    (ls rs : List Line) :
    (∀ k, k < min vs.length ws.length → ∀ l0 r0 : Line,
      ls[k]? = some l0 → rs[k]? = some r0 →
      (alignGo (.remP vs :: .addP ws :: rest) ls rs).left[k]?.map Entry.type
          = some (if jsTrim l0.text ≠ "" ∧ jsTrim r0.text ≠ "" then
              (if jsTrim l0.text ≠ jsTrim r0.text then EType.modified else EType.unchanged)
            else (if jsTrim l0.text ≠ "" then EType.removed else EType.unchanged)) ∧
      (alignGo (.remP vs :: .addP ws :: rest) ls rs).right[k]?.map Entry.type
          = some (if jsTrim l0.text ≠ "" ∧ jsTrim r0.text ≠ "" then
              (if jsTrim l0.text ≠ jsTrim r0.text then EType.modified else EType.unchanged)
            else (if jsTrim r0.text ≠ "" then EType.added else EType.unchanged))) ∧
    (∀ k, min vs.length ws.length ≤ k → k < vs.length → ∀ l0 : Line,
      ls[k]? = some l0 →
      (alignGo (.remP vs :: .addP ws :: rest) ls rs).left[k]?.map Entry.type
          = some (if jsTrim l0.text ≠ "" then EType.removed else EType.unchanged) ∧
      (alignGo (.remP vs :: .addP ws :: rest) ls rs).right[k]?.map Entry.type
          = some EType.placeholder) ∧
    (∀ k, min vs.length ws.length ≤ k → k < ws.length → ∀ r0 : Line,
      rs[k]? = some r0 →
      (alignGo (.remP vs :: .addP ws :: rest) ls rs).left[k]?.map Entry.type
          = some EType.placeholder ∧
      (alignGo (.remP vs :: .addP ws :: rest) ls rs).right[k]?.map Entry.type
          = some (if jsTrim r0.text ≠ "" then EType.added else EType.unchanged)) := by
  have lpb : ∀ f : Entry × Entry × Nat × Nat → Entry,
      ((pairBlock ls rs 0 (min vs.length ws.length)).map f).length
        = min vs.length ws.length := by
    intro f; simp [pairBlock]
  have lrb : ∀ f : Entry × Entry × Nat → Entry,
      ((removedBlock ls (min vs.length ws.length)
        (vs.length - min vs.length ws.length)).map f).length
        = vs.length - min vs.length ws.length := by
    intro f; simp [removedBlock]
  have lab : ∀ f : Entry × Entry × Nat → Entry,
      ((addedBlock rs (min vs.length ws.length)
        (ws.length - min vs.length ws.length)).map f).length
        = ws.length - min vs.length ws.length := by
    intro f; simp [addedBlock]
  refine ⟨?_, ?_, ?_⟩
  · intro k hk l0 r0 hl hr
    constructor
    · simp only [alignGo]
      rw [List.getElem?_append_left (by simp [lpb, lrb, lab]; omega),
          List.getElem?_append_left (by simp [lpb, lrb]; omega),
          List.getElem?_append_left (by simp [lpb]; omega),
          List.getElem?_map, pairBlock_getElem? ls rs 0 _ k hk]
      simp only [Nat.zero_add, hl, hr, Option.map_some']
      exact congrArg some (pairEntryOf_types l0 r0).1
    · simp only [alignGo]
      rw [List.getElem?_append_left (by simp [lpb, lrb, lab]; omega),
          List.getElem?_append_left (by simp [lpb, lrb]; omega),
          List.getElem?_append_left (by simp [lpb]; omega),
          List.getElem?_map, pairBlock_getElem? ls rs 0 _ k hk]
      simp only [Nat.zero_add, hl, hr, Option.map_some']
      exact congrArg some (pairEntryOf_types l0 r0).2
  · intro k hk1 hk2 l0 hl
    have hidx : min vs.length ws.length
        + (k - min vs.length ws.length) = k := by omega
    constructor
    · simp only [alignGo]
      rw [List.getElem?_append_left (by simp [lpb, lrb, lab]; omega),
          List.getElem?_append_left (by simp [lpb, lrb]; omega),
          List.getElem?_append_right (le_of_eq_of_le (lpb _) hk1)]
      rw [lpb, List.getElem?_map,
        removedBlock_getElem? ls (min vs.length ws.length)
          (vs.length - min vs.length ws.length) (k - min vs.length ws.length) (by omega)]
      rw [hidx, hl]
      simp only [Option.map_some']
      exact congrArg some (removedEntryOf_types l0).1
    · simp only [alignGo]
      rw [List.getElem?_append_left (by simp [lpb, lrb, lab]; omega),
          List.getElem?_append_left (by simp [lpb, lrb]; omega),
          List.getElem?_append_right (le_of_eq_of_le (lpb _) hk1)]
      rw [lpb, List.getElem?_map,
        removedBlock_getElem? ls (min vs.length ws.length)
          (vs.length - min vs.length ws.length) (k - min vs.length ws.length) (by omega)]
      rw [hidx, hl]
      simp only [Option.map_some']
      exact congrArg some (removedEntryOf_types l0).2
  · intro k hk1 hk2 r0 hr
    have hvw : vs.length = min vs.length ws.length := by omega
    have hidx : min vs.length ws.length
        + (k - (min vs.length ws.length + (vs.length - min vs.length ws.length))) = k := by
      omega
    constructor
    · simp only [alignGo]
      rw [List.getElem?_append_left (by simp [lpb, lrb, lab]; omega),
          List.getElem?_append_right (by simp [lpb, lrb]; omega)]
      rw [List.length_append, lpb, lrb, List.getElem?_map,
        addedBlock_getElem? rs (min vs.length ws.length)
          (ws.length - min vs.length ws.length)
          (k - (min vs.length ws.length + (vs.length - min vs.length ws.length)))
          (by omega)]
      rw [hidx, hr]
      simp only [Option.map_some']
      exact congrArg some (addedEntryOf_types r0).1
    · simp only [alignGo]
      rw [List.getElem?_append_left (by simp [lpb, lrb, lab]; omega),
          List.getElem?_append_right (by simp [lpb, lrb]; omega)]
      rw [List.length_append, lpb, lrb, List.getElem?_map,
        addedBlock_getElem? rs (min vs.length ws.length)
          (ws.length - min vs.length ws.length)
          (k - (min vs.length ws.length + (vs.length - min vs.length ws.length)))
          (by omega)]
      rw [hidx, hr]
      simp only [Option.map_some']
      exact congrArg some (addedEntryOf_types r0).2

/-- C3 counterexample: on left lines `"a"`, `" "` against right line `"b"`,
the raw alignment is a removed segment of length 2 immediately followed by
an added segment of length 1, yet the leftover removed line (the
whitespace-only `" "`) is classified `unchanged`, not `removed`
(deleted-only) as the claim states. -/
theorem claim_C3_counterexample :
    coalesce (diffBy lineCmp ["a", " "] ["b"])
        = [Part.remP ["a", " "], Part.addP ["b"]] ∧
    (createTrueLineAlignment [⟨"a", 20⟩, ⟨" ", 20⟩] [⟨"b", 20⟩]).left.map Entry.type
        = [EType.modified, EType.unchanged] := by
  decide

theorem claim_C3_pairing_witness :
    (alignGo [Part.remP ["a", " "], Part.addP ["b"]]
        [⟨"a", 20⟩, ⟨" ", 20⟩] [⟨"b", 20⟩]).left[0]?.map Entry.type
      = some EType.modified ∧
    (alignGo [Part.remP ["a", " "], Part.addP ["b"]]
        [⟨"a", 20⟩, ⟨" ", 20⟩] [⟨"b", 20⟩]).right[0]?.map Entry.type
      = some EType.modified ∧
    (alignGo [Part.remP ["a", " "], Part.addP ["b"]]
        [⟨"a", 20⟩, ⟨" ", 20⟩] [⟨"b", 20⟩]).left[1]?.map Entry.type
      = some EType.unchanged ∧
    (alignGo [Part.remP ["a", " "], Part.addP ["b"]]
        [⟨"a", 20⟩, ⟨" ", 20⟩] [⟨"b", 20⟩]).right[1]?.map Entry.type
      = some EType.placeholder := by
  have h := claim_C3_pairing_amended ["a", " "] ["b"] []
      [⟨"a", 20⟩, ⟨" ", 20⟩] [⟨"b", 20⟩]
  have h1 := h.1 0 (by decide) ⟨"a", 20⟩ ⟨"b", 20⟩ (by decide) (by decide)
  have h2 := h.2.1 1 (by decide) (by decide) ⟨" ", 20⟩ (by decide)
  exact ⟨h1.1.trans (by decide), h1.2.trans (by decide),
    h2.1.trans (by decide), h2.2⟩

/-- C9 (amended): whitespace-only lines are no-ops in the aligner.  When an
empty (blank) line is paired against a non-empty line, the pair is not
classified as a modification and contributes nothing to the counts: the
blank side is marked unchanged and the non-empty side is marked added (on
the right) or removed (on the left); pairing two blank lines is likewise a
no-op with both sides unchanged. -/
theorem claim_C9_blank_lines_amended :
    (∀ L R : Line, jsTrim L.text = "" → jsTrim R.text ≠ "" →
      createTrueLineAlignment [L] [R] =
        ⟨[{ type := .unchanged, content := L.text, element := some L }],
         [{ type := .added, content := R.text, element := some R }], 0, 0⟩) ∧
    (∀ L R : Line, jsTrim L.text ≠ "" → jsTrim R.text = "" →
      createTrueLineAlignment [L] [R] =
        ⟨[{ type := .removed, content := L.text, element := some L }],
         [{ type := .unchanged, content := R.text, element := some R }], 0, 0⟩) ∧
    (∀ L R : Line, jsTrim L.text = "" → jsTrim R.text = "" →
      createTrueLineAlignment [L] [R] =
        ⟨[{ type := .unchanged, content := L.text, element := some L }],
         [{ type := .unchanged, content := R.text, element := some R }], 0, 0⟩) := by
  refine ⟨?_, ?_, ?_⟩
  · intro L R h1 h2
    have hcmp : lineCmp L.text R.text = false := by
      simp only [lineCmp, h1, beq_eq_false_iff_ne, ne_eq]
      exact fun hh => h2 hh.symm
    simp [createTrueLineAlignment, diffBy, diffSegs, lcsLen, hcmp, coalesce,
      alignGo, pairBlock, removedBlock, addedBlock, List.range',
      pairEntryOf, pairFallback, h1, h2]
  · intro L R h1 h2
    have hcmp : lineCmp L.text R.text = false := by
      simp only [lineCmp, h2, beq_eq_false_iff_ne, ne_eq]
      exact h1
    simp [createTrueLineAlignment, diffBy, diffSegs, lcsLen, hcmp, coalesce,
      alignGo, pairBlock, removedBlock, addedBlock, List.range',
      pairEntryOf, pairFallback, h1, h2]
  · intro L R h1 h2
    have hcmp : lineCmp L.text R.text = true := by
      simp [lineCmp, h1, h2]
    simp [createTrueLineAlignment, diffBy, diffSegs, lcsLen, hcmp, coalesce,
      alignGo, equalBlock, List.range', equalEntryOf]

theorem claim_C9_amended_witness :
    createTrueLineAlignment [⟨"  ", 20⟩] [⟨"hello", 20⟩] =
      ⟨[{ type := .unchanged, content := "  ", element := some ⟨"  ", 20⟩ }],
       [{ type := .added, content := "hello", element := some ⟨"hello", 20⟩ }], 0, 0⟩ := by
  have h := claim_C9_blank_lines_amended
  exact h.1 ⟨"  ", 20⟩ ⟨"hello", 20⟩ (by decide) (by decide)

/-- C9 counterexample: pairing the whitespace-only line `" "` against the
non-empty line `"x"` does not produce a modification and contributes
nothing to the summary; the left side is `unchanged` and the right side
`added`, with zero additions and deletions counted. -/
theorem claim_C9_counterexample :
    (createTrueLineAlignment [⟨" ", 20⟩] [⟨"x", 20⟩]).left.map Entry.type
        = [EType.unchanged] ∧
    (createTrueLineAlignment [⟨" ", 20⟩] [⟨"x", 20⟩]).right.map Entry.type
        = [EType.added] ∧
    (createTrueLineAlignment [⟨" ", 20⟩] [⟨"x", 20⟩]).additions = 0 ∧
    (createTrueLineAlignment [⟨" ", 20⟩] [⟨"x", 20⟩]).deletions = 0 := by
  decide

/-- side being annotated, the `"left" | "right"` parameter of the source. -/
inductive Side where
  | left | right
deriving DecidableEq, Repr

/-- class of a span emitted by `applyInlineWordDiff`. -/
inductive SpanCls where
  | inlineAdded | inlineRemoved | plain
deriving DecidableEq, Repr

/-- one `<span>` emitted by `applyInlineWordDiff` into the annotated block. -/
structure Span where
  cls : SpanCls
  text : String
deriving DecidableEq, Repr

/-- model of `applyInlineWordDiff` (js lines 474-526).  `none` means the
element's markup is left untouched (both texts blank, trim-equal texts, a
diff without changes, or no meaningful content so the original HTML is
restored); otherwise the element's content is replaced by the span list,
with a non-breaking space when the rendered text is blank.  Additions are
only shown on the right side and removals only on the left. -/
def applyInlineWordDiff (ownText otherText : String) (side : Side) : Option (List Span) :=
  if jsTrim ownText = "" ∧ jsTrim otherText = "" then none
  else if jsTrim ownText = jsTrim otherText then none
  else
    let diffs := diffWordsWithSpace ownText otherText
    if ¬ (diffs.any (fun d =>
        d.status == TokStatus.added || d.status == TokStatus.removed)) then none
    else
      let spans := diffs.filterMap (fun d =>
        match d.status, side with
        | .added, .right => some ⟨.inlineAdded, d.value⟩
        | .removed, .left => some ⟨.inlineRemoved, d.value⟩
        | .unchanged, _ => some ⟨.plain, d.value⟩
        | _, _ => none)
      let hasContent := diffs.any (fun d =>
        match d.status, side with
        | .added, .right => true
        | .removed, .left => true
        | .unchanged, _ => !(jsTrim d.value == "")
        | _, _ => false)
      if ¬ hasContent then none
      else if jsTrim (String.join (spans.map Span.text)) = "" then
        some [⟨.plain, " "⟩]
      else some spans

/-- structural mark a `classList.add` call puts on an image. -/
inductive ImgMark where
  | structuralRemoved | structuralAdded | structuralModified
deriving DecidableEq, Repr

/-- output of `applyImageDiffOutlines`: the marks applied to each document's
images (indexed like the loop, up to the longer list) and the structural
summary. -/
structure ImageDiffOut where
  leftMarks : List (Option ImgMark)
  rightMarks : List (Option ImgMark)
  additions : Nat
  deletions : Nat
deriving DecidableEq, Repr

/-- one iteration of the image loop (js lines 538-559), at index `i`:
left-only source → removed; right-only → added; both present with different
`src` → modified on both sides, counting one addition and one deletion. -/
def imageStep (ls rs : List String) (i : Nat) :
    Option ImgMark × Option ImgMark × Nat × Nat :=
  match ls[i]?, rs[i]? with
  | some _, none => (some .structuralRemoved, none, 0, 1)
  | none, some _ => (none, some .structuralAdded, 1, 0)
  | some a, some b =>
    if a ≠ b then (some .structuralModified, some .structuralModified, 1, 1)
    else (none, none, 0, 0)
  | none, none => (none, none, 0, 0)

/-- model of `applyImageDiffOutlines` (js lines 528-566), with documents
represented by their image source-locator lists. -/
def applyImageDiffOutlines (ls rs : List String) : ImageDiffOut :=
  let steps := (List.range (max ls.length rs.length)).map (imageStep ls rs)
  ⟨steps.map (fun x => x.1), steps.map (fun x => x.2.1),
   (steps.map (fun x => x.2.2.1)).sum, (steps.map (fun x => x.2.2.2)).sum⟩

/-- mark a table cell can receive; a modified cell records the inline word
diff applied to its (trimmed) text. -/
inductive CellMark where
  | removed
  | added
  | modified (spans : Option (List Span))
deriving DecidableEq, Repr

/-- the cell branch of `applyTableCellDiffs` (js lines 599-619), for one own
cell with text `ocText` facing `xc` (the other document's cell at the same
coordinates, if any); returns the cell mark plus the row-removed and
row-added triggers the branch fires. -/
def cellMarkOf (ocText : String) (xc : Option String) (side : Side) :
    Option CellMark × Bool × Bool :=
  let ownText := jsTrim ocText
  let otherText := jsTrim (match xc with | some t => t | none => "")
  if xc = none ∧ ownText ≠ "" then
    (if side = .left then (some .removed, true, false) else (none, false, false))
  else if xc ≠ none ∧ ownText = "" ∧ otherText ≠ "" ∧ side = .right then
    (some .added, false, true)
  else if xc ≠ none ∧ ownText ≠ "" ∧ otherText ≠ "" ∧ ownText ≠ otherText then
    (some (.modified (applyInlineWordDiff ownText otherText side)), false, false)
  else (none, false, false)

/-- marks applied to one table row: per-cell marks plus the row-level
classes. -/
structure MarkedRow where
  cells : List (Option CellMark)
  rowRemoved : Bool
  rowAdded : Bool
deriving DecidableEq, Repr

/-- process one own row against the other document's row cells (missing row
→ no cells, as `Array.from(xrow ? xrow.cells : [])`); the loop runs to the
larger column count but marks only own cells, so iterating own cells is
equivalent. -/
def markRow (own other : List String) (side : Side) : MarkedRow :=
  let res := own.enum.map (fun ct => cellMarkOf ct.2 other[ct.1]? side)
  ⟨res.map (fun x => x.1), res.any (fun x => x.2.1), res.any (fun x => x.2.2)⟩

/-- process one own table against the other document's table rows. -/
def markTable (own other : List (List String)) (side : Side) : List MarkedRow :=
  own.enum.map (fun rrow => markRow rrow.2 (other[rrow.1]?.getD []) side)

/-- model of `applyTableCellDiffs` (js lines 568-625): tables, rows and
cells are matched purely positionally; a document's tables are its grids of
cell texts.  Own tables with no counterpart are still walked (`xt` empty). -/
def applyTableCellDiffs (own other : List (List (List String))) (side : Side) :
    List (List MarkedRow) :=
  own.enum.map (fun tt => markTable tt.2 (other[tt.1]?.getD []) side)

/-- formatting flags of a block, as collected by `extractLineFeatures`
(presence of bold/italic/underline markup, inline font size, text align). -/
structure Fmt where
  hasBold : Bool := false
  hasItalic : Bool := false
  hasUnderline : Bool := false
  fontSize : String := ""
  textAlign : String := ""
deriving DecidableEq, Repr

/-- one block-level element of a document: its raw inner text, rendered
height and formatting flags.  `collectLinesWithStructure` reads a trimmed
copy of the text, `collectBlockLinesWithFormat` the raw text and flags. -/
structure Block where
  text : String
  height : Nat := 20
  fmt : Fmt := {}
deriving DecidableEq, Repr

/-- data-level model of a parsed HTML document: its block lines outside
tables, its image source locators in order, and its tables as grids of
cell texts. -/
structure Doc where
  blocks : List Block := []
  images : List String := []
  tables : List (List (List String)) := []
deriving DecidableEq, Repr

/-- model of `collectLinesWithStructure` (js lines 64-97): the block lines
with their text trimmed. -/
def collectLines (d : Doc) : List Line :=
  d.blocks.map (fun b => ⟨jsTrim b.text, b.height⟩)

/-- model of `extractPlainText` (js lines 647-653): the `textContent` of the
whole document — all block text followed by all table cell text (images
contribute no text). -/
def extractPlainText (d : Doc) : String :=
  String.join (d.blocks.map Block.text)
    ++ String.join (d.tables.map (fun t =>
        String.join (t.map (fun row => String.join row))))

def onOff (b : Bool) : String := if b then "on" else "off"

def orAuto (s : String) : String := if s = "" then "auto" else s

/-- model of `compareFormat` (js lines 723-731): one human-readable
descriptor per differing attribute, in the source's push order. -/
def compareFormat (fa fb : Fmt) : List String :=
  (if fa.hasBold ≠ fb.hasBold then
    ["bold: " ++ onOff fa.hasBold ++ " → " ++ onOff fb.hasBold] else [])
  ++ (if fa.hasItalic ≠ fb.hasItalic then
    ["italic: " ++ onOff fa.hasItalic ++ " → " ++ onOff fb.hasItalic] else [])
  ++ (if fa.hasUnderline ≠ fb.hasUnderline then
    ["underline: " ++ onOff fa.hasUnderline ++ " → " ++ onOff fb.hasUnderline] else [])
  ++ (if fa.fontSize ≠ fb.fontSize then
    ["font-size: " ++ orAuto fa.fontSize ++ " → " ++ orAuto fb.fontSize] else [])
  ++ (if fa.textAlign ≠ fb.textAlign then
    ["alignment: " ++ orAuto fa.textAlign ++ " → " ++ orAuto fb.textAlign] else [])

/-- model of `escapeHtml`: what setting `textContent` and reading back
`innerHTML` escapes. -/
def escChar (c : Char) : List Char :=
  if c = '&' then "&amp;".data
  else if c = '<' then "&lt;".data
  else if c = '>' then "&gt;".data
  else [c]

def escapeHtml (s : String) : String := ⟨(s.data.map escChar).flatten⟩

/-- model of `visibleSpaces` (js lines 708-711): spaces and tabs rendered as
visible marker glyphs. -/
def vsChar (c : Char) : List Char :=
  if c = ' ' then "<span class=\"ws\">·</span>".data
  else if c = '\t' then "<span class=\"ws\">→</span>".data
  else [c]

def visibleSpaces (s : String) : String := ⟨(s.data.map vsChar).flatten⟩

/-- render one inline diff token as `inlineDiffHtml` does. -/
def renderTok (t : WordToken) : String :=
  match t.status with
  | .added => "<span class=\"git-inline-added\">"
      ++ visibleSpaces (escapeHtml t.value) ++ "</span>"
  | .removed => "<span class=\"git-inline-removed\">"
      ++ visibleSpaces (escapeHtml t.value) ++ "</span>"
  | .unchanged => visibleSpaces (escapeHtml t.value)

/-- model of `inlineDiffHtml` (js lines 713-721). -/
def inlineDiffHtml (a b : String) : String :=
  String.join ((diffWordsWithSpace a b).map renderTok)

/-- one row of the detailed report (js `lines.push` objects). -/
structure RptEntry where
  v1 : String
  v2 : String
  status : String
  diffHtml : String
  formatChanges : List String
deriving DecidableEq, Repr

/-- the added-part loop of `generateDetailedReport` (js lines 749-756):
consume `n` right lines starting at index `k`, pushing an ADDED row (and
advancing the `v2` line counter) only for non-blank lines. -/
def rptAddedLoop (rs : List Block) : Nat → Nat → Nat → List RptEntry × Nat
  | _, 0, v2 => ([], v2)
  | k, n + 1, v2 =>
    match rs[k]? with
    | some r =>
      if jsTrim r.text ≠ "" then
        let res := rptAddedLoop rs (k + 1) n (v2 + 1)
        (⟨"", toString v2, "ADDED", inlineDiffHtml "" r.text, ["added line"]⟩ :: res.1,
         res.2)
      else rptAddedLoop rs (k + 1) n v2
    | none => rptAddedLoop rs (k + 1) n v2

/-- the removed-part loop of `generateDetailedReport` (js lines 758-765). -/
def rptRemovedLoop (ls : List Block) : Nat → Nat → Nat → List RptEntry × Nat
  | _, 0, v1 => ([], v1)
  | k, n + 1, v1 =>
    match ls[k]? with
    | some l =>
      if jsTrim l.text ≠ "" then
        let res := rptRemovedLoop ls (k + 1) n (v1 + 1)
        (⟨toString v1, "", "REMOVED", inlineDiffHtml l.text "", ["removed line"]⟩ :: res.1,
         res.2)
      else rptRemovedLoop ls (k + 1) n v1
    | none => rptRemovedLoop ls (k + 1) n v1

/-- the unchanged-part loop of `generateDetailedReport` (js lines 767-783):
a synced pair with equal trimmed text but differing formatting becomes a
FORMATTING-ONLY row; equal text and formatting an UNCHANGED row; different
text (not both blank) a MODIFIED row with the inline word diff. -/
def rptEqualLoop (ls rs : List Block) : Nat → Nat → Nat → Nat →
    List RptEntry × Nat × Nat
  | _, 0, v1, v2 => ([], v1, v2)
  | k, n + 1, v1, v2 =>
    match ls[k]?, rs[k]? with
    | some l, some r =>
      if jsTrim l.text = jsTrim r.text ∧ compareFormat l.fmt r.fmt ≠ [] then
        let res := rptEqualLoop ls rs (k + 1) n (v1 + 1) (v2 + 1)
        (⟨toString v1, toString v2, "FORMATTING-ONLY",
          visibleSpaces (escapeHtml l.text), compareFormat l.fmt r.fmt⟩ :: res.1, res.2)
      else if jsTrim l.text = jsTrim r.text then
        let res := rptEqualLoop ls rs (k + 1) n (v1 + 1) (v2 + 1)
        (⟨toString v1, toString v2, "UNCHANGED",
          visibleSpaces (escapeHtml l.text), []⟩ :: res.1, res.2)
      else if jsTrim l.text ≠ "" ∨ jsTrim r.text ≠ "" then
        let res := rptEqualLoop ls rs (k + 1) n (v1 + 1) (v2 + 1)
        (⟨toString v1, toString v2, "MODIFIED",
          inlineDiffHtml l.text r.text, compareFormat l.fmt r.fmt⟩ :: res.1, res.2)
      else rptEqualLoop ls rs (k + 1) n v1 v2
    | _, _ => rptEqualLoop ls rs (k + 1) n v1 v2

/-- the per-line part of `generateDetailedReport` (js lines 733-784),
walking the diff parts; note it uses the strict comparator
`(a, b) => a === b`, unlike the aligner. -/
def reportGo : List (Part String) → List Block → List Block → Nat → Nat → List RptEntry
  | [], _, _, _, _ => []
  | .addP vs :: rest, ls, rs, v1, v2 =>
    let res := rptAddedLoop rs 0 vs.length v2
    res.1 ++ reportGo rest ls (rs.drop vs.length) v1 res.2
  | .remP vs :: rest, ls, rs, v1, v2 =>
    let res := rptRemovedLoop ls 0 vs.length v1
    res.1 ++ reportGo rest (ls.drop vs.length) rs res.2 v2
  | .eqP ps :: rest, ls, rs, v1, v2 =>
    let res := rptEqualLoop ls rs 0 ps.length v1 v2
    res.1 ++ reportGo rest (ls.drop ps.length) (rs.drop ps.length) res.2.1 res.2.2

/-- the paragraph-line rows of `generateDetailedReport`, with both line
counters starting at 1. -/
def generateDetailedReportLines (l r : Doc) : List RptEntry :=
  reportGo (coalesce (diffBy (· == ·) (l.blocks.map Block.text)
    (r.blocks.map Block.text))) l.blocks r.blocks 1 1

/-- content of one output pane of `compareHtmlDocuments`: either the
original document untouched (the identical-documents short-circuit) or the
document annotated with image marks, table cell marks and aligned line
entries. -/
inductive RenderedDoc where
  | original (d : Doc)
  | annotated (imageMarks : List (Option ImgMark)) (tables : List (List MarkedRow))
      (entries : List Entry)
deriving DecidableEq, Repr

/-- result of `compareHtmlDocuments`: the two panes, the summary
(`additions`, `deletions`, `changes`) and the detailed per-line report. -/
structure HtmlCompareResult where
  left : RenderedDoc
  right : RenderedDoc
  additions : Nat
  deletions : Nat
  changes : Nat
  detailedLines : List RptEntry
deriving DecidableEq, Repr

/-- model of `compareHtmlDocuments` (js lines 26-60): if the two documents'
plain text is trim-equal, return the originals untouched with a zero
summary and an empty report; otherwise apply the image diff, the positional
table-cell diff on both sides, and the line alignment, and sum the
structural and text summaries, with `changes` their total. -/
def compareHtmlDocuments (l r : Doc) : HtmlCompareResult :=
  if jsTrim (extractPlainText l) = jsTrim (extractPlainText r) then
    ⟨.original l, .original r, 0, 0, 0, []⟩
  else
    let im := applyImageDiffOutlines l.images r.images
    let tl := applyTableCellDiffs l.tables r.tables .left
    let tr2 := applyTableCellDiffs r.tables l.tables .right
    let a := createTrueLineAlignment (collectLines l) (collectLines r)
    let additions := im.additions + a.additions
    let deletions := im.deletions + a.deletions
    ⟨.annotated im.leftMarks tl a.left, .annotated im.rightMarks tr2 a.right,
     additions, deletions, additions + deletions,
     generateDetailedReportLines l r⟩

/-- image record of the TypeScript variant's `extractStructuralElements`:
its source locator and its serialized element (`outerHTML`). -/
structure TsImage where
  src : String
  element : String
deriving DecidableEq, Repr

/-- model of the TypeScript `countStructuralChanges`
(textComparison.ts lines 308-352): one deletion per left image whose `src`
appears nowhere on the right, one addition per right image whose `src`
appears nowhere on the left, PLUS one addition and one deletion per index
where both images exist but their elements differ; table counts contribute
their difference.  The table lists enter only through their lengths. -/
def countStructuralChanges (li ri : List TsImage) (ltables rtables : Nat) :
    Nat × Nat :=
  let dels1 := (li.filter (fun img => !(ri.any (fun r0 => r0.src == img.src)))).length
  let adds1 := (ri.filter (fun img => !(li.any (fun l0 => l0.src == img.src)))).length
  let modCount := ((List.range (min li.length ri.length)).filter
    (fun i => match li[i]?, ri[i]? with
      | some a, some b => a.element != b.element
      | _, _ => false)).length
  let tadds := if rtables > ltables then rtables - ltables else 0
  let tdels := if ltables > rtables then ltables - rtables else 0
  (adds1 + modCount + tadds, dels1 + modCount + tdels)

/-- C4: for every pair of inputs, the summary of the comparison operations
satisfies `changes = additions + deletions`, the additions and deletions
accumulating both text-level and structural (image) contributions in
`compareHtmlDocuments`, and the plain-text `compareDocuments` likewise. -/
theorem claim_C4_summary_consistency (l r : Doc) (a b : String) :
    (compareHtmlDocuments l r).changes
      = (compareHtmlDocuments l r).additions + (compareHtmlDocuments l r).deletions ∧
    (compareDocuments a b).changes
      = (compareDocuments a b).additions + (compareDocuments a b).deletions := by
  constructor
  · unfold compareHtmlDocuments
    split <;> rfl
  · rfl

/-- C5: comparing a document with itself is a no-op — the short-circuit
returns both originals unannotated with a zero summary and an empty
detailed report; more generally any two documents whose extracted plain
text is trim-equal short-circuit the same way. -/
theorem claim_C5_noop_short_circuit :
    (∀ T : Doc, compareHtmlDocuments T T
      = ⟨.original T, .original T, 0, 0, 0, []⟩) ∧
    (∀ l r : Doc, jsTrim (extractPlainText l) = jsTrim (extractPlainText r) →
      compareHtmlDocuments l r = ⟨.original l, .original r, 0, 0, 0, []⟩) := by
  have h2 : ∀ l r : Doc, jsTrim (extractPlainText l) = jsTrim (extractPlainText r) →
      compareHtmlDocuments l r = ⟨.original l, .original r, 0, 0, 0, []⟩ := by
    intro l r h
    unfold compareHtmlDocuments
    rw [if_pos h]
  exact ⟨fun T => h2 T T rfl, h2⟩

theorem claim_C5_witness :
    compareHtmlDocuments ⟨[⟨"hello", 20, {}⟩], ["a.png"], []⟩
        ⟨[⟨"hello", 20, {}⟩], ["b.png"], []⟩
      = ⟨.original ⟨[⟨"hello", 20, {}⟩], ["a.png"], []⟩,
         .original ⟨[⟨"hello", 20, {}⟩], ["b.png"], []⟩, 0, 0, 0, []⟩ := by
  exact claim_C5_noop_short_circuit.2 _ _ (by decide)

/-- C6 counterexample: in the TypeScript `countStructuralChanges`, replacing
the single image `a.png` by `b.png` is counted twice — once as a
non-matching locator in each direction and once as an index modification —
contributing two additions and two deletions, not one of each. -/
theorem claim_C6_counterexample :
    countStructuralChanges [⟨"a.png", "[img a.png]"⟩] [⟨"b.png", "[img b.png]"⟩] 0 0
      = (2, 2) := by
  decide

/-- C6 (amended): in the engine's `applyImageDiffOutlines`, images are
matched at parallel index positions by source-locator equality, and a
replaced image (both present, different locator) is marked modified on both
sides and contributes exactly one addition and one deletion to the
structural summary; the TypeScript `countStructuralChanges` variant instead
double-counts such a replacement as two additions and two deletions. -/
theorem claim_C6_image_replaced_amended (a b : String) (h : a ≠ b) :
    applyImageDiffOutlines [a] [b]
      = ⟨[some .structuralModified], [some .structuralModified], 1, 1⟩ := by
  have hm : max ([a].length) ([b].length) = 1 := rfl
  have hr1 : List.range 1 = [0] := rfl
  simp [applyImageDiffOutlines, imageStep, hm, hr1, h]

theorem claim_C6_amended_witness :
    applyImageDiffOutlines ["a.png"] ["b.png"]
      = ⟨[some .structuralModified], [some .structuralModified], 1, 1⟩ :=
  claim_C6_image_replaced_amended "a.png" "b.png" (by decide)

/-- C7 counterexample: a cell that exists only in the right document (here
the extra cell `"x"`) is NOT marked added by `applyTableCellDiffs` — when
annotating the right side, the missing-counterpart branch only marks on the
left side, so the cell stays unmarked. -/
theorem claim_C7_counterexample :
    applyTableCellDiffs [[["a", "x"]]] [[["a"]]] Side.right
      = [[⟨[none, none], false, false⟩]] := by
  decide

/-- C7 (amended): table cells are matched purely positionally at identical
(table, row, column) coordinates, never by content: the output at
coordinates `(t, r)` is exactly the marking of the own row against the
other document's row at the same coordinates.  A cell existing only on the
left with non-blank text is marked removed, and its row marked removed, on
the left side (the right side leaves a right-only cell unmarked); a cell
present on both sides whose own (right) text is blank while the other is
non-blank is marked added with its row marked added; a cell present on both
sides with non-blank, different trimmed texts is marked modified with the
inline word differ applied to its trimmed text, exactly as for a paragraph
line. -/
theorem claim_C7_table_cells_amended :
    (∀ (own other : List (List (List String))) (side : Side) (t r : Nat)
        (tb : List (List String)) (row : List String),
      own[t]? = some tb → tb[r]? = some row →
      ((applyTableCellDiffs own other side)[t]?.getD [])[r]?
        = some (markRow row ((other[t]?.getD [])[r]?.getD []) side)) ∧
    (∀ (row orow : List String) (c : Nat) (cell : String),
      row[c]? = some cell → orow[c]? = none → jsTrim cell ≠ "" →
      (markRow row orow .left).cells[c]? = some (some CellMark.removed) ∧
      (markRow row orow .left).rowRemoved = true ∧
      (markRow row orow .right).cells[c]? = some none) ∧
    (∀ (row orow : List String) (c : Nat) (cell ocell : String),
      row[c]? = some cell → orow[c]? = some ocell →
      jsTrim cell = "" → jsTrim ocell ≠ "" →
      (markRow row orow .right).cells[c]? = some (some CellMark.added) ∧
      (markRow row orow .right).rowAdded = true) ∧
    (∀ (side : Side) (row orow : List String) (c : Nat) (cell ocell : String),
      row[c]? = some cell → orow[c]? = some ocell →
      jsTrim cell ≠ "" → jsTrim ocell ≠ "" → jsTrim cell ≠ jsTrim ocell →
      (markRow row orow side).cells[c]? = some (some (CellMark.modified
        (applyInlineWordDiff (jsTrim cell) (jsTrim ocell) side)))) := by
  have hcells : ∀ (row orow : List String) (side : Side) (c : Nat) (cell : String),
      row[c]? = some cell →
      (markRow row orow side).cells[c]? = some (cellMarkOf cell orow[c]? side).1 := by
    intro row orow side c cell hc
    unfold markRow
    simp only [List.map_map, List.getElem?_map, List.getElem?_enum, hc,
      Option.map_some', Function.comp_apply]
  have hmem : ∀ (row orow : List String) (side : Side) (c : Nat) (cell : String),
      row[c]? = some cell →
      cellMarkOf cell orow[c]? side
        ∈ row.enum.map (fun ct => cellMarkOf ct.2 orow[ct.1]? side) := by
    intro row orow side c cell hc
    apply List.getElem?_mem (n := c)
    simp only [List.getElem?_map, List.getElem?_enum, hc, Option.map_some']
  refine ⟨?_, ?_, ?_, ?_⟩
  · intro own other side t r tb row ht hr
    unfold applyTableCellDiffs
    rw [List.getElem?_map, List.getElem?_enum, ht]
    simp only [Option.map_some', Option.getD_some]
    unfold markTable
    rw [List.getElem?_map, List.getElem?_enum, hr]
    rfl
  · intro row orow c cell hc horc hnb
    have h1 := hcells row orow .left c cell hc
    have h2 := hcells row orow .right c cell hc
    rw [horc] at h1 h2
    have hmark : cellMarkOf cell none Side.left = (some CellMark.removed, true, false) := by
      simp [cellMarkOf, hnb]
    have hmark2 : cellMarkOf cell none Side.right = (none, false, false) := by
      simp [cellMarkOf, hnb]
    refine ⟨by rw [h1, hmark], ?_, by rw [h2, hmark2]⟩
    · show (markRow row orow .left).rowRemoved = true
      unfold markRow
      simp only []
      apply List.any_eq_true.mpr
      refine ⟨cellMarkOf cell orow[c]? Side.left, hmem row orow .left c cell hc, ?_⟩
      rw [horc, hmark]
  · intro row orow c cell ocell hc horc hbl hnb
    have h2 := hcells row orow .right c cell hc
    rw [horc] at h2
    have hmark : cellMarkOf cell (some ocell) Side.right
        = (some CellMark.added, false, true) := by
      simp [cellMarkOf, hbl, hnb]
    refine ⟨by rw [h2, hmark], ?_⟩
    show (markRow row orow .right).rowAdded = true
    unfold markRow
    simp only []
    apply List.any_eq_true.mpr
    refine ⟨cellMarkOf cell orow[c]? Side.right, hmem row orow .right c cell hc, ?_⟩
    rw [horc, hmark]
  · intro side row orow c cell ocell hc horc hnb1 hnb2 hne
    have h1 := hcells row orow side c cell hc
    rw [horc] at h1
    have hmark : cellMarkOf cell (some ocell) side
        = (some (CellMark.modified
            (applyInlineWordDiff (jsTrim cell) (jsTrim ocell) side)), false, false) := by
      simp [cellMarkOf, hnb1, hnb2, hne]
    rw [h1, hmark]

theorem claim_C7_amended_witness :
    ((applyTableCellDiffs [[["x"]]] [] Side.left)[0]?.getD [])[0]?
        = some (markRow ["x"] [] Side.left) ∧
    (markRow ["x"] [] Side.left).cells[0]? = some (some CellMark.removed) ∧
    (markRow ["x"] [] Side.left).rowRemoved = true ∧
    (markRow ["a", "b"] ["a", "c"] Side.left).cells[1]?
        = some (some (CellMark.modified (applyInlineWordDiff "b" "c" Side.left))) := by
  have h := claim_C7_table_cells_amended
  refine ⟨h.1 [[["x"]]] [] Side.left 0 0 [["x"]] ["x"] (by decide) (by decide),
    (h.2.1 ["x"] [] 0 "x" (by decide) (by decide) (by decide)).1,
    (h.2.1 ["x"] [] 0 "x" (by decide) (by decide) (by decide)).2.1, ?_⟩
  have hm := h.2.2.2 Side.left ["a", "b"] ["a", "c"] 1 "b" "c"
    (by decide) (by decide) (by decide) (by decide) (by decide)
  exact hm.trans (by decide)

/-- C8: for a pair of lines with equal text, if at least one formatting
attribute differs, the detailed report classifies the line as
FORMATTING-ONLY (not UNCHANGED), with one descriptor of the form
`"<attribute>: <old> → <new>"` per differing attribute (for the bold flag,
`"bold: off → on"` when the line turned bold), and the pair contributes
zero additions and zero deletions to the alignment summary. -/
theorem claim_C8_formatting_only (b1 b2 : Block) (htext : b1.text = b2.text)
    (hfmt : compareFormat b1.fmt b2.fmt ≠ []) :
    generateDetailedReportLines ⟨[b1], [], []⟩ ⟨[b2], [], []⟩
      = [⟨"1", "1", "FORMATTING-ONLY", visibleSpaces (escapeHtml b1.text),
          compareFormat b1.fmt b2.fmt⟩] ∧
    (createTrueLineAlignment (collectLines ⟨[b1], [], []⟩)
      (collectLines ⟨[b2], [], []⟩)).additions = 0 ∧
    (createTrueLineAlignment (collectLines ⟨[b1], [], []⟩)
      (collectLines ⟨[b2], [], []⟩)).deletions = 0 ∧
    (b1.fmt.hasBold ≠ b2.fmt.hasBold →
      ("bold: " ++ onOff b1.fmt.hasBold ++ " → " ++ onOff b2.fmt.hasBold)
        ∈ compareFormat b1.fmt b2.fmt) := by
  have hbeq : (b1.text == b2.text) = true := by simp [htext]
  have htrim : jsTrim b1.text = jsTrim b2.text := by rw [htext]
  have hone : (toString (1 : Nat)) = "1" := rfl
  refine ⟨?_, ?_, ?_, ?_⟩
  · simp only [generateDetailedReportLines, diffBy]
    simp [diffSegs, hbeq, coalesce, reportGo, rptEqualLoop, htrim, hfmt, hone]
  · have hcmp : lineCmp (jsTrim b1.text) (jsTrim b2.text) = true := by
      simp [lineCmp, htrim]
    simp only [createTrueLineAlignment, collectLines, diffBy]
    simp [diffSegs, hcmp, coalesce, alignGo]
  · have hcmp : lineCmp (jsTrim b1.text) (jsTrim b2.text) = true := by
      simp [lineCmp, htrim]
    simp only [createTrueLineAlignment, collectLines, diffBy]
    simp [diffSegs, hcmp, coalesce, alignGo]
  · intro hb
    simp [compareFormat, hb]

theorem claim_C8_witness :
    generateDetailedReportLines
        ⟨[⟨"Note", 20, ⟨false, false, false, "", ""⟩⟩], [], []⟩
        ⟨[⟨"Note", 20, ⟨true, false, false, "", ""⟩⟩], [], []⟩
      = [⟨"1", "1", "FORMATTING-ONLY", "Note", ["bold: off → on"]⟩] ∧
    (createTrueLineAlignment
      (collectLines ⟨[⟨"Note", 20, ⟨false, false, false, "", ""⟩⟩], [], []⟩)
      (collectLines ⟨[⟨"Note", 20, ⟨true, false, false, "", ""⟩⟩], [], []⟩)).additions
        = 0 ∧
    (createTrueLineAlignment
      (collectLines ⟨[⟨"Note", 20, ⟨false, false, false, "", ""⟩⟩], [], []⟩)
      (collectLines ⟨[⟨"Note", 20, ⟨true, false, false, "", ""⟩⟩], [], []⟩)).deletions
        = 0 := by
  have h := claim_C8_formatting_only
    ⟨"Note", 20, ⟨false, false, false, "", ""⟩⟩
    ⟨"Note", 20, ⟨true, false, false, "", ""⟩⟩ rfl (by decide)
  exact ⟨h.1.trans (by decide), h.2.1, h.2.2.1⟩

end DocDiff
